import Mathlib

/-!
Verification of the order-sizing / risk-gating / TWAP-execution core of the
`bitcoin_trader_llm` application.

The Python source is shallowly embedded over `ℚ` (the code manipulates Python
floats; all claims are settled exactly over the rationals, which is the
"exact over rationals / floating-point tolerance only" reading the spec asks
for).  Embedded modules:

* `app/policy.py` — order-book depth model: `estimate_slippage_for_notional`
  and `compute_max_notional_for_slippage` (normalized books only; claims are
  stated on normalized snapshots).
* `app/risk_engine.py` — the `RiskEngine` state machine.
* `app/portfolio_manager.py` — `propose_positions`, `apply_risk_engine`,
  `finalize_orders` (the pure decision pipeline; uuid/timestamp/trace-file
  fields are irrelevant to the claims and are omitted).
* `app/order_executor.py` — `TWAPExecutor.execute_twap`, dry-run path.

Python truthiness matters in several places (`a or b` treats `0.0` and `None`
as falsy); it is modelled explicitly by `pyOrOpt` / `pyOrD`.
-/

/-! ## Order-book depth model (`app/policy.py`) -/

/-- One normalized order-book level (price, size); `krw` is the derived
notional, mirroring the `krw` key produced by `_normalize_orderbook`. -/
structure Level where
  price : ℚ
  size : ℚ
deriving DecidableEq, Repr

def Level.krw (l : Level) : ℚ := l.price * l.size

/-- A normalized order-book snapshot: ask levels (ascending price) and bid
levels (descending price).  Empty lists model "unknown depth". -/
structure Book where
  asks : List Level
  bids : List Level
deriving DecidableEq, Repr

/-- Trade side.  The Python code dispatches on `side.lower().startswith('b')`;
`buy` is that branch, `sell` the other. -/
inductive Side where
  | buy : Side
  | sell : Side
deriving DecidableEq, Repr

/-- `best = levels[0]['price'] if best_price is None else float(best_price)`. -/
def bestOf (levels : List Level) (hint : Option ℚ) : ℚ :=
  match hint with
  | some b => b
  | none => ((levels.head?).map Level.price).getD 0

/-- The greedy fill loop shared by both sides of
`estimate_slippage_for_notional`: walk the levels, skip levels with
non-positive notional, consume whole levels while their notional is below the
remaining target, and finish with a partial amount `remaining / p` on the
first level that can absorb the rest.  Returns `(sum_amount, sum_krw)` or
`none` when total depth is insufficient (`remaining > 0` after the loop). -/
def fillGo : List Level → ℚ → ℚ → ℚ → Option (ℚ × ℚ)
  | [], remaining, sumAmt, sumKrw =>
      if remaining > 0 then none else some (sumAmt, sumKrw)
  | l :: rest, remaining, sumAmt, sumKrw =>
      if l.krw ≤ 0 then fillGo rest remaining sumAmt sumKrw
      else if l.krw ≥ remaining then
        some (sumAmt + remaining / l.price, sumKrw + (remaining / l.price) * l.price)
      else fillGo rest (remaining - l.krw) (sumAmt + l.size) (sumKrw + l.krw)

/-- `estimate_slippage_for_notional(orderbook, side, notional_krw, best_price)`
on an already-normalized book.  Buys consume asks and report the signed
fraction `avg/best - 1`; sells consume bids and report `abs((avg-best)/best)`. -/
def estimate_slippage_for_notional (book : Book) (side : Side) (notional : ℚ)
    (hint : Option ℚ) : Option ℚ :=
  match side with
  | .buy =>
    if book.asks = [] then none else
    match fillGo book.asks notional 0 0 with
    | none => none
    | some (sA, sK) =>
      if sA ≤ 0 then none
      else some (sK / sA / bestOf book.asks hint - 1)
  | .sell =>
    if book.bids = [] then none else
    match fillGo book.bids notional 0 0 with
    | none => none
    | some (sA, sK) =>
      if sA ≤ 0 then none
      else some (|((sK / sA - bestOf book.bids hint) / bestOf book.bids hint)|)

/-- Buy-side accumulation loop of `compute_max_notional_for_slippage`:
add whole levels while the cumulative weighted average stays at or below
`target`, then solve linearly for the partial amount of the breaching level. -/
def cmpBuyGo (target : ℚ) : List Level → ℚ → ℚ → Option ℚ
  | [], _, cumK => if cumK > 0 then some cumK else none
  | l :: rest, cumA, cumK =>
    if cumA + l.size ≤ 0 then
      cmpBuyGo target rest (cumA + l.size) (cumK + l.price * l.size)
    else
      if (cumK + l.price * l.size) / (cumA + l.size) ≤ target then
        cmpBuyGo target rest (cumA + l.size) (cumK + l.price * l.size)
      else if l.price - target ≤ 0 then
        cmpBuyGo target rest (cumA + l.size) (cumK + l.price * l.size)
      else
        if (target * cumA - cumK) / (l.price - target) ≤ 0 then
          (if cumK > 0 then some cumK else none)
        else
          some (cumK + min ((target * cumA - cumK) / (l.price - target)) l.size * l.price)

/-- Sell-side accumulation loop of `compute_max_notional_for_slippage`. -/
def cmpSellGo (target : ℚ) : List Level → ℚ → ℚ → Option ℚ
  | [], _, cumK => if cumK > 0 then some cumK else none
  | l :: rest, cumA, cumK =>
    if (if cumA + l.size > 0 then (cumK + l.price * l.size) / (cumA + l.size) else l.price) ≥ target then
      cmpSellGo target rest (cumA + l.size) (cumK + l.price * l.size)
    else if target - l.price ≤ 0 then
      cmpSellGo target rest (cumA + l.size) (cumK + l.price * l.size)
    else
      if (target * cumA - cumK) / (target - l.price) ≤ 0 then
        (if cumK > 0 then some cumK else none)
      else
        some (cumK + min ((target * cumA - cumK) / (target - l.price)) l.size * l.price)

/-- `compute_max_notional_for_slippage(orderbook, side, max_slippage_pct,
best_price)` on a normalized book.  Note the Python code uses
`max_slippage_pct` directly as a fraction: `target = best * (1 ± bound)`. -/
def compute_max_notional_for_slippage (book : Book) (side : Side)
    (maxSlip : ℚ) (hint : Option ℚ) : Option ℚ :=
  match side with
  | .buy =>
    if book.asks = [] then none else
    cmpBuyGo (bestOf book.asks hint * (1 + maxSlip)) book.asks 0 0
  | .sell =>
    if book.bids = [] then none else
    cmpSellGo (bestOf book.bids hint * (1 - maxSlip)) book.bids 0 0

/-- Total notional (sum of `price*size`) of a level list. -/
def sumKrw (levels : List Level) : ℚ := (levels.map Level.krw).sum

/-- Total amount (sum of `size`) of a level list. -/
def sumAmt (levels : List Level) : ℚ := (levels.map Level.size).sum

/-- Well-formed level list per the data model: positive prices, non-negative
sizes. -/
def WFLevels (levels : List Level) : Prop :=
  ∀ l ∈ levels, 0 < l.price ∧ 0 ≤ l.size

/-! ## Risk engine (`app/risk_engine.py`) -/

/-- Tags of the event records appended to `RiskEngine.events`. -/
inductive Event where
  | dailyLossLimit : Event
  | riskVetoed : Event
  | riskScaled : Event
  | riskReduction : Event
  | reductionLimited : Event
  | riskRecovery : Event
deriving DecidableEq, Repr

/-- The `RiskEngine` dataclass: configuration plus runtime state.  Python
floats become `ℚ`, Python ints become `ℤ`, `Optional[float]` becomes
`Option ℚ`. -/
structure RiskEngine where
  initial_risk_pct : ℚ
  min_risk_pct : ℚ
  daily_loss_limit_pct : ℚ
  max_drawdown_limit_pct : ℚ
  consecutive_losses_threshold : ℤ
  consecutive_loss_multiplier : ℚ
  max_reduction_steps : ℤ
  recovery_enabled : Bool
  recovery_consec_wins : ℤ
  recovery_step_pct_of_initial : ℚ
  start_of_day_nav : Option ℚ
  daily_realized_pnl : ℚ
  peak_nav : Option ℚ
  current_risk_pct : ℚ
  consecutive_losses : ℤ
  consecutive_wins : ℤ
  blocked_for_day : Bool
  daily_loss_triggers : ℤ
  dd_triggers : ℤ
  consecutive_loss_triggers : ℤ
  reduction_steps : ℤ
  events : List Event
deriving DecidableEq, Repr

/-- Construction followed by `__post_init__`: a negative `min_risk_pct` is
replaced by `0.01`, then `min_risk_pct` is capped at `initial_risk_pct`, and
`current_risk_pct` starts at `initial_risk_pct`.  Runtime state starts empty. -/
def mkRiskEngine (initial minRisk dailyLimit ddLimit : ℚ)
    (lossThreshold : ℤ) (lossMult : ℚ) (maxSteps : ℤ)
    (recEnabled : Bool) (recWins : ℤ) (recStep : ℚ) : RiskEngine :=
  let m1 := if minRisk < 0 then (1 : ℚ) / 100 else minRisk
  let m2 := if m1 > initial then initial else m1
  { initial_risk_pct := initial
    min_risk_pct := m2
    daily_loss_limit_pct := dailyLimit
    max_drawdown_limit_pct := ddLimit
    consecutive_losses_threshold := lossThreshold
    consecutive_loss_multiplier := lossMult
    max_reduction_steps := maxSteps
    recovery_enabled := recEnabled
    recovery_consec_wins := recWins
    recovery_step_pct_of_initial := recStep
    start_of_day_nav := none
    daily_realized_pnl := 0
    peak_nav := none
    current_risk_pct := initial
    consecutive_losses := 0
    consecutive_wins := 0
    blocked_for_day := false
    daily_loss_triggers := 0
    dd_triggers := 0
    consecutive_loss_triggers := 0
    reduction_steps := 0
    events := [] }

/-- `on_new_day(nav)`: reset the daily reference NAV and realized PnL, clear
the daily block, raise `peak_nav` if `nav` is a new high. -/
def onNewDay (s : RiskEngine) (nav : ℚ) : RiskEngine :=
  { s with
    start_of_day_nav := some nav
    daily_realized_pnl := 0
    blocked_for_day := false
    peak_nav :=
      match s.peak_nav with
      | none => some nav
      | some p => if nav > p then some nav else some p }

/-- `allow_entry()`. -/
def allowEntry (s : RiskEngine) : Bool := !s.blocked_for_day

/-- `_apply_reduction`: no-op (plus `reduction_limited` event) once
`reduction_steps` reaches `max_reduction_steps`; otherwise multiply
`current_risk_pct` by the multiplier, floor at `min_risk_pct`, and record the
change only if the value actually moved. -/
def applyReduction (s : RiskEngine) : RiskEngine :=
  if s.reduction_steps ≥ s.max_reduction_steps then
    { s with events := s.events ++ [Event.reductionLimited] }
  else
    let old := s.current_risk_pct
    let n0 := s.current_risk_pct * s.consecutive_loss_multiplier
    let n1 := if n0 < s.min_risk_pct then s.min_risk_pct else n0
    if n1 ≠ old then
      { s with
        current_risk_pct := n1
        reduction_steps := s.reduction_steps + 1
        consecutive_loss_triggers := s.consecutive_loss_triggers + 1
        events := s.events ++ [Event.riskReduction] }
    else s

/-- `_attempt_recovery`: linear ramp of `current_risk_pct` toward
`initial_risk_pct` by `initial * recovery_step_pct_of_initial`, never
exceeding the initial value. -/
def attemptRecovery (s : RiskEngine) : RiskEngine :=
  if !s.recovery_enabled then s
  else if s.current_risk_pct ≥ s.initial_risk_pct then s
  else
    let c0 := s.current_risk_pct + s.initial_risk_pct * s.recovery_step_pct_of_initial
    let c1 := if c0 > s.initial_risk_pct then s.initial_risk_pct else c0
    if c1 > s.current_risk_pct then
      { s with current_risk_pct := c1, events := s.events ++ [Event.riskRecovery] }
    else s

/-- The drawdown percentage computed by `record_trade_result` after the peak
update: `(peak - nav)/peak*100` when the peak is truthy and positive, else 0. -/
def ddOf (peak : Option ℚ) (nav : ℚ) : ℚ :=
  match peak with
  | some p => if p > 0 then (p - nav) / p * 100 else 0
  | none => 0

/-- The peak-NAV update performed by `record_trade_result`. -/
def peakUpd (peak : Option ℚ) (nav : ℚ) : Option ℚ :=
  match peak with
  | none => some nav
  | some p => if nav > p then some nav else some p

/-- The daily-loss latch step of `record_trade_result`: when the start-of-day
NAV is truthy and positive, today's realized loss as a percent of it reaches
`daily_loss_limit_pct`, and the block is not already latched, set the block
and record a `daily_loss_limit` event. -/
def dailyLossCheck (s : RiskEngine) : RiskEngine :=
  match s.start_of_day_nav with
  | some nav0 =>
    if nav0 > 0 then
      let dlp := if s.daily_realized_pnl < 0 then -s.daily_realized_pnl / nav0 * 100 else 0
      if dlp ≥ s.daily_loss_limit_pct ∧ ¬s.blocked_for_day then
        { s with
          blocked_for_day := true
          daily_loss_triggers := s.daily_loss_triggers + 1
          events := s.events ++ [Event.dailyLossLimit] }
      else s
    else s
  | none => s

/-- The consecutive-loss trigger of `record_trade_result`: apply a reduction
and reset the loss streak once it reaches the threshold. -/
def lossStreakTrigger (s : RiskEngine) : RiskEngine :=
  if s.consecutive_losses ≥ s.consecutive_losses_threshold then
    { (applyReduction s) with consecutive_losses := 0 }
  else s

/-- The drawdown trigger of `record_trade_result` (the drawdown value was
computed before the other triggers ran). -/
def drawdownTrigger (dd : ℚ) (s : RiskEngine) : RiskEngine :=
  if dd ≥ s.max_drawdown_limit_pct then applyReduction s else s

/-- The recovery trigger of `record_trade_result`: attempt a recovery and
reset the win streak once it reaches `recovery_consec_wins`. -/
def winStreakTrigger (s : RiskEngine) : RiskEngine :=
  if s.consecutive_wins ≥ s.recovery_consec_wins then
    { (attemptRecovery s) with consecutive_wins := 0 }
  else s

/-- `record_trade_result(pnl, nav_after)`: accumulate daily PnL, update
win/loss streaks and the peak NAV, latch the daily-loss block, then run the
consecutive-loss, drawdown and recovery triggers in order. -/
def recordTradeResult (s : RiskEngine) (pnl navAfter : ℚ) : RiskEngine :=
  let s3 :=
    if pnl ≤ 0 then
      { s with daily_realized_pnl := s.daily_realized_pnl + pnl,
               consecutive_losses := s.consecutive_losses + 1,
               consecutive_wins := 0,
               peak_nav := peakUpd s.peak_nav navAfter }
    else
      { s with daily_realized_pnl := s.daily_realized_pnl + pnl,
               consecutive_wins := s.consecutive_wins + 1,
               consecutive_losses := 0,
               peak_nav := peakUpd s.peak_nav navAfter }
  winStreakTrigger (drawdownTrigger (ddOf s3.peak_nav navAfter) (lossStreakTrigger (dailyLossCheck s3)))

/-- A risk decision returned by `evaluate_proposal`. -/
structure Decision where
  allow : Bool
  scale : ℚ
  adjusted_risk_pct : ℚ
  reason : String
deriving DecidableEq, Repr

/-- The two risk fields `evaluate_proposal` reads from a proposal dict:
`suggested_risk_pct` and `suggested_risk` (absent key = `none`). -/
structure RiskView where
  suggested_risk_pct : Option ℚ
  suggested_risk : Option ℚ
deriving DecidableEq, Repr

/-- Python `a or b` on optional floats: `a` wins only when present and
non-zero (Python truthiness), otherwise the result is `b`. -/
def pyOrOpt (a b : Option ℚ) : Option ℚ :=
  match a with
  | some v => if v ≠ 0 then some v else b
  | none => b

/-- The base risk `evaluate_proposal` resolves from a proposal:
`proposal.get('suggested_risk_pct') or proposal.get('suggested_risk')`,
defaulting to `initial_risk_pct` when that chain yields `None`. -/
def resolveBaseRisk (s : RiskEngine) (p : RiskView) : ℚ :=
  (pyOrOpt p.suggested_risk_pct p.suggested_risk).getD s.initial_risk_pct

/-- `evaluate_proposal(proposal)`: veto when blocked for the day; pass
through unscaled when the resolved base risk is non-positive; otherwise scale
by `current_risk_pct / base_risk` clamped into `(0, 1]`.  Returns the decision
together with the updated engine (only `events` can change). -/
def evaluateProposal (s : RiskEngine) (p : RiskView) : Decision × RiskEngine :=
  if s.blocked_for_day then
    (⟨false, 0, 0, "daily_loss_blocked"⟩, { s with events := s.events ++ [Event.riskVetoed] })
  else
    let base := resolveBaseRisk s p
    if base ≤ 0 then
      (⟨true, 1, s.initial_risk_pct, "no_base_risk"⟩, s)
    else
      let scale := s.current_risk_pct / base
      if scale ≤ 0 then
        (⟨false, 0, 0, "scale_zero"⟩, { s with events := s.events ++ [Event.riskVetoed] })
      else
        let scale1 := if scale > 1 then 1 else scale
        if scale1 < 1 then
          (⟨true, scale1, base * scale1, "cap_enforced_current_risk"⟩,
            { s with events := s.events ++ [Event.riskScaled] })
        else
          (⟨true, 1, base * scale1, "ok"⟩, s)

/-- The claimed invariant of C10: the risk cap sits between its floor and its
initial value. -/
def RiskBand (s : RiskEngine) : Prop :=
  s.min_risk_pct ≤ s.current_risk_pct ∧ s.current_risk_pct ≤ s.initial_risk_pct

/-- The strengthening of `RiskBand` that actually survives the engine's
operations (and holds after construction when `initial_risk_pct ≥ 0`): the
floor is additionally non-negative. -/
def RiskBandStrong (s : RiskEngine) : Prop :=
  0 ≤ s.min_risk_pct ∧ RiskBand s

/-! ## Portfolio manager (`app/portfolio_manager.py`) -/

/-- The fields of a `Signal` that `propose_positions` reads.  `meta_entry_price`
models `meta.get('entry_price')` (absent or empty meta = `none`). -/
structure Signal where
  source : String
  symbol : String
  side : String
  score : ℚ
  confidence : Option ℚ
  suggested_risk_pct : Option ℚ
  suggested_stop_pct : Option ℚ
  meta_entry_price : Option ℚ
deriving DecidableEq, Repr

/-- A `ProposedPosition` (identifier and timestamp fields omitted). -/
structure Proposal where
  symbol : String
  side : String
  entry_price_hint : ℚ
  suggested_notional : ℚ
  suggested_risk_pct : ℚ
  suggested_stop_pct : ℚ
  units : ℚ
  combined_score : ℚ
deriving DecidableEq, Repr

/-- A final `Order` (identifier and meta fields omitted). -/
structure Order where
  symbol : String
  side : String
  units : ℚ
  notional : ℚ
deriving DecidableEq, Repr

/-- Python `a or b` with a concrete right-hand default (used for the entry
price chain, where `0.0` is falsy). -/
def pyOrD (a : Option ℚ) (b : ℚ) : ℚ :=
  match a with
  | some v => if v ≠ 0 then v else b
  | none => b

/-- Sort key used for representative selection:
`(confidence or 0.0, score)`. -/
def sigKey (s : Signal) : ℚ × ℚ := (s.confidence.getD 0, s.score)

/-- Lexicographic strict order on sort keys. -/
def keyLt (a b : ℚ × ℚ) : Prop := a.1 < b.1 ∨ (a.1 = b.1 ∧ a.2 < b.2)

instance (a b : ℚ × ℚ) : Decidable (keyLt a b) := by
  unfold keyLt
  infer_instance

/-- `sorted(sigs, key=sigKey, reverse=True)[0]`: Python's sort is stable, so
this is the first signal attaining the maximal key — a later signal replaces
the current representative only when its key is strictly greater. -/
def pickRep : List Signal → Option Signal
  | [] => none
  | x :: xs => some (xs.foldl (fun best s => if keyLt (sigKey best) (sigKey s) then s else best) x)

/-- Symbols in order of first appearance (Python dict insertion order in
`_group_by_symbol`). -/
def symbolsIn : List Signal → List String → List String
  | [], _ => []
  | s :: rest, seen =>
    if s.symbol ∈ seen then symbolsIn rest seen
    else s.symbol :: symbolsIn rest (s.symbol :: seen)

/-- The per-symbol body of `propose_positions`: representative selection,
combined score, risk/stop preference (agent first, then rule, then defaults),
entry-price fallback chain, and sizing.  Returns `none` when the total weight
is zero. -/
def proposeForSymbol (agentWeight ruleWeight defaultRisk equity : ℚ)
    (priceHint : Option ℚ) (sigs : List Signal) : Option Proposal :=
  let agentRep := pickRep (sigs.filter (fun s => s.source = "agent"))
  let ruleRep := pickRep (sigs.filter (fun s => s.source = "rule"))
  let weighted := (match agentRep with | some a => agentWeight * a.score | none => 0) +
    (match ruleRep with | some r => ruleWeight * r.score | none => 0)
  let totalWeight := (match agentRep with | some _ => agentWeight | none => 0) +
    (match ruleRep with | some _ => ruleWeight | none => 0)
  if totalWeight = 0 then none
  else
    let combined := weighted / totalWeight
    let riskPct :=
      match agentRep with
      | some a =>
        match a.suggested_risk_pct with
        | some v => v
        | none =>
          match ruleRep with
          | some r => (r.suggested_risk_pct).getD defaultRisk
          | none => defaultRisk
      | none =>
        match ruleRep with
        | some r => (r.suggested_risk_pct).getD defaultRisk
        | none => defaultRisk
    let stopPct :=
      match agentRep with
      | some a =>
        match a.suggested_stop_pct with
        | some v => v
        | none =>
          match ruleRep with
          | some r => (r.suggested_stop_pct).getD 1
          | none => 1
      | none =>
        match ruleRep with
        | some r => (r.suggested_stop_pct).getD 1
        | none => 1
    let entryPrice := pyOrD priceHint (pyOrD (agentRep.bind Signal.meta_entry_price) 1)
    let desiredRisk := riskPct / 100 * equity
    let stopFrac := max (stopPct / 100) (1 / 1000000)
    let notional := desiredRisk / stopFrac
    let units := notional / entryPrice
    let side :=
      match agentRep with
      | some a => a.side
      | none => match ruleRep with | some r => r.side | none => "long"
    some
      { symbol := (match sigs.head? with | some s => s.symbol | none => "")
        side := side
        entry_price_hint := entryPrice
        suggested_notional := notional
        suggested_risk_pct := riskPct
        suggested_stop_pct := stopPct
        units := units
        combined_score := combined }

/-- `propose_positions(equity, market_state)`: group the working signal set by
symbol and build at most one proposal per symbol. -/
def proposePositions (signals : List Signal) (equity : ℚ) (priceHint : Option ℚ)
    (agentWeight ruleWeight defaultRisk : ℚ) : List Proposal :=
  (symbolsIn signals []).filterMap fun sym =>
    proposeForSymbol agentWeight ruleWeight defaultRisk equity priceHint
      (signals.filter (fun s => s.symbol = sym))

/-- The dict view of a proposal handed to the risk engine: `asdict` always
contains `suggested_risk_pct` and never a `suggested_risk` key. -/
def riskViewOf (p : Proposal) : RiskView :=
  ⟨some p.suggested_risk_pct, none⟩

/-- `apply_risk_engine(proposals, ...)`: one `evaluate_proposal` call per
proposal, threading the engine state (its `events` log) left to right; each
decision carries its proposal. -/
def applyRiskEngine (s : RiskEngine) : List Proposal → List (Decision × Proposal) × RiskEngine
  | [] => ([], s)
  | p :: ps =>
    let (d, s') := evaluateProposal s (riskViewOf p)
    let (rest, s'') := applyRiskEngine s' ps
    ((d, p) :: rest, s'')

/-- `finalize_orders(decisions, ...)`: one order per decision with
`allow ∧ scale > 0`, with `units = proposal.units * scale` and
`notional = units * entry_price_hint`; everything else is dropped. -/
def finalizeOrders (decisions : List (Decision × Proposal)) : List Order :=
  decisions.filterMap fun dp =>
    let scale := if dp.1.allow then dp.1.scale else 0
    if ¬dp.1.allow ∨ scale ≤ 0 then none
    else
      some
        { symbol := dp.2.symbol
          side := dp.2.side
          units := dp.2.units * scale
          notional := dp.2.units * scale * dp.2.entry_price_hint }

/-! ## TWAP execution scheduler (`app/order_executor.py`, dry-run path)

The per-slice order book and best price never change inside one run when the
caller passes a fixed `market_state` (and an absent order book is normalized
to the empty snapshot, on which `compute_max_notional_for_slippage` and
`estimate_slippage_for_notional` both return `None`), so the loop is modelled
with a constant `book` and `best`. -/

/-- Status of a recorded TWAP slice on the dry-run path. -/
inductive SliceStatus where
  | simulated : SliceStatus
  | skippedTooSmall : SliceStatus
deriving DecidableEq, Repr

/-- One entry of `slices_executed` (the fields the claims read). -/
structure SliceRec where
  sliceNo : ℕ
  status : SliceStatus
  requested : ℚ
  actual : ℚ
  price : ℚ
deriving DecidableEq, Repr

/-- The body of `execute_twap`'s slice loop, dry-run branch.  `fuel` counts
the remaining loop iterations (`slices - i`); `i` is the 0-based slice index.
Per iteration: equal-share planning (all of the remainder on the final
slice), depth-capped actual (half of planned when depth is unknown), the
`skipped_too_small` stop, fill-price simulation, and the post-slice
remainder checks. -/
def twapGo (slices : ℕ) (perSlice minSlice : ℚ) (book : Book) (side : Side)
    (maxSlip best limitPrice : ℚ) : ℕ → ℕ → ℚ → List SliceRec
  | 0, _, _ => []
  | fuel + 1, i, remaining =>
    if remaining ≤ 0 then []
    else
      let planned0 := if i < slices - 1 then perSlice else remaining
      let planned := min planned0 remaining
      let allowed := compute_max_notional_for_slippage book side maxSlip (some best)
      let actual :=
        match allowed with
        | none => min (planned * (1 / 2)) remaining
        | some a => min planned (min a remaining)
      if actual < minSlice then
        [⟨i + 1, SliceStatus.skippedTooSmall, planned, 0, 0⟩]
      else
        let price :=
          match estimate_slippage_for_notional book side actual (some best) with
          | none => limitPrice
          | some f =>
            match side with
            | .buy => best * (1 + f)
            | .sell => best * (1 - f)
        let recEntry : SliceRec := ⟨i + 1, SliceStatus.simulated, planned, actual, price⟩
        let remaining' := remaining - actual
        if remaining' ≤ 0 ∨ remaining' < minSlice then [recEntry]
        else recEntry :: twapGo slices perSlice minSlice book side maxSlip best limitPrice fuel (i + 1) remaining'

/-- `execute_twap(...)` on the dry-run path with a fixed market state:
returns the slice ledger.  `best` is the entry-price hint (no order book ⇒
the hint is never overridden); the limit price is offset from it by
`limit_offset_pct` in the direction of the side. -/
def executeTwap (side : Side) (total : ℚ) (slices0 : ℕ)
    (minSlice maxSlip limitOffset best : ℚ) (book : Book) : List SliceRec :=
  let slices := if 0 < slices0 then slices0 else 1
  let perSlice := total / (slices : ℚ)
  let limitPrice :=
    match side with
    | .buy => best * (1 + limitOffset)
    | .sell => best * (1 - limitOffset)
  twapGo slices perSlice minSlice book side maxSlip best limitPrice slices 0 total

/-! ## Helper lemmas: risk-engine step functions -/

theorem applyReduction_blocked (s : RiskEngine) :
    (applyReduction s).blocked_for_day = s.blocked_for_day := by
  simp only [applyReduction]
  split_ifs <;> rfl

theorem attemptRecovery_blocked (s : RiskEngine) :
    (attemptRecovery s).blocked_for_day = s.blocked_for_day := by
  simp only [attemptRecovery]
  split_ifs <;> rfl

theorem lossStreakTrigger_blocked (s : RiskEngine) :
    (lossStreakTrigger s).blocked_for_day = s.blocked_for_day := by
  unfold lossStreakTrigger
  split_ifs <;> simp [applyReduction_blocked]

theorem drawdownTrigger_blocked (dd : ℚ) (s : RiskEngine) :
    (drawdownTrigger dd s).blocked_for_day = s.blocked_for_day := by
  unfold drawdownTrigger
  split_ifs <;> simp [applyReduction_blocked]

theorem winStreakTrigger_blocked (s : RiskEngine) :
    (winStreakTrigger s).blocked_for_day = s.blocked_for_day := by
  unfold winStreakTrigger
  split_ifs <;> simp [attemptRecovery_blocked]

theorem dailyLossCheck_blocked_mono (s : RiskEngine) (h : s.blocked_for_day = true) :
    (dailyLossCheck s).blocked_for_day = true := by
  unfold dailyLossCheck
  cases hnav : s.start_of_day_nav with
  | none => exact h
  | some nav0 => split_ifs <;> simp_all

theorem recordTradeResult_blocked_mono (s : RiskEngine) (pnl nav : ℚ)
    (h : s.blocked_for_day = true) :
    (recordTradeResult s pnl nav).blocked_for_day = true := by
  unfold recordTradeResult
  by_cases hp : pnl ≤ 0 <;>
    simp only [hp, if_true, if_false, winStreakTrigger_blocked, drawdownTrigger_blocked,
      lossStreakTrigger_blocked] <;>
    exact dailyLossCheck_blocked_mono _ h


/-! ## Claim C5 — `_apply_reduction` -/

/-- Counterexample to claim C5 as stated: with `current_risk_pct` already at
the floor and `reduction_steps` below the limit, a reduction trigger changes
nothing and emits no event at all — in particular not the `reduction_limited`
event the claim's "otherwise" clause demands. -/
theorem claim_C5_counterexample :
    let s := { mkRiskEngine 1 (5/100) 1 10 3 (1/2) 5 true 3 (1/10) with
               current_risk_pct := 5/100 }
    max (s.current_risk_pct * s.consecutive_loss_multiplier) s.min_risk_pct
      = s.current_risk_pct ∧
    s.reduction_steps < s.max_reduction_steps ∧
    applyReduction s = s ∧
    ¬(applyReduction s).events = s.events ++ [Event.reductionLimited] := by
  refine ⟨by norm_num [mkRiskEngine], by norm_num [mkRiskEngine],
    by norm_num [applyReduction, mkRiskEngine], by norm_num [applyReduction, mkRiskEngine]⟩

/-- Claim C5 (amended): a reduction trigger sets `current_risk_pct` to
`max(current * multiplier, min_risk_pct)`, applies it only when this changes
the value and `reduction_steps < max_reduction_steps`, incrementing the step
counter when applied; when the step limit is already reached it emits a
`reduction_limited` event with no other state change (so after
`max_reduction_steps` applied reductions every further qualifying trigger
leaves `current_risk_pct` unchanged and emits `reduction_limited`); and when
the clamped value equals the current value (steps below the limit) it changes
nothing and emits no event. -/
theorem claim_C5_apply_reduction (s : RiskEngine) :
    (s.reduction_steps ≥ s.max_reduction_steps →
      applyReduction s = { s with events := s.events ++ [Event.reductionLimited] }) ∧
    (s.reduction_steps < s.max_reduction_steps →
      max (s.current_risk_pct * s.consecutive_loss_multiplier) s.min_risk_pct
        ≠ s.current_risk_pct →
      (applyReduction s).current_risk_pct
          = max (s.current_risk_pct * s.consecutive_loss_multiplier) s.min_risk_pct ∧
        (applyReduction s).reduction_steps = s.reduction_steps + 1 ∧
        (applyReduction s).events = s.events ++ [Event.riskReduction]) ∧
    (s.reduction_steps < s.max_reduction_steps →
      max (s.current_risk_pct * s.consecutive_loss_multiplier) s.min_risk_pct
        = s.current_risk_pct →
      applyReduction s = s) := by
  have hmax : (if s.current_risk_pct * s.consecutive_loss_multiplier < s.min_risk_pct then
      s.min_risk_pct else s.current_risk_pct * s.consecutive_loss_multiplier)
      = max (s.current_risk_pct * s.consecutive_loss_multiplier) s.min_risk_pct := by
    rcases lt_or_ge (s.current_risk_pct * s.consecutive_loss_multiplier) s.min_risk_pct with h | h
    · rw [if_pos h, max_eq_right h.le]
    · rw [if_neg (not_lt.mpr h), max_eq_left h]
  refine ⟨fun h1 => ?_, fun h1 h2 => ?_, fun h1 h2 => ?_⟩
  · simp only [applyReduction, if_pos h1]
  · simp only [applyReduction, if_neg (not_le.mpr h1)]
    rw [hmax, if_pos h2]
    exact ⟨rfl, rfl, rfl⟩
  · simp only [applyReduction, if_neg (not_le.mpr h1)]
    rw [hmax, if_neg fun hc => hc h2]

/-- Witness for `claim_C5_apply_reduction` at concrete inputs: an engine at
the step limit, an engine with a strictly reducing step, and an engine at the
floor. -/
theorem claim_C5_apply_reduction_witness :
    (applyReduction { mkRiskEngine 1 (5/100) 1 10 3 (1/2) 5 true 3 (1/10) with reduction_steps := 5 }
      = { { mkRiskEngine 1 (5/100) 1 10 3 (1/2) 5 true 3 (1/10) with reduction_steps := 5 } with
          events := ({ mkRiskEngine 1 (5/100) 1 10 3 (1/2) 5 true 3 (1/10) with
            reduction_steps := 5 } : RiskEngine).events ++ [Event.reductionLimited] }) ∧
    (applyReduction (mkRiskEngine 1 (5/100) 1 10 3 (1/2) 5 true 3 (1/10))).current_risk_pct
      = max ((mkRiskEngine 1 (5/100) 1 10 3 (1/2) 5 true 3 (1/10)).current_risk_pct
          * (mkRiskEngine 1 (5/100) 1 10 3 (1/2) 5 true 3 (1/10)).consecutive_loss_multiplier)
          (mkRiskEngine 1 (5/100) 1 10 3 (1/2) 5 true 3 (1/10)).min_risk_pct ∧
    applyReduction { mkRiskEngine 1 (5/100) 1 10 3 (1/2) 5 true 3 (1/10) with
        current_risk_pct := 5/100 }
      = { mkRiskEngine 1 (5/100) 1 10 3 (1/2) 5 true 3 (1/10) with current_risk_pct := 5/100 } :=
  ⟨(claim_C5_apply_reduction _).1 (by norm_num [mkRiskEngine]),
   ((claim_C5_apply_reduction _).2.1 (by norm_num [mkRiskEngine])
      (by norm_num [mkRiskEngine])).1,
   (claim_C5_apply_reduction _).2.2 (by norm_num [mkRiskEngine]) (by norm_num [mkRiskEngine])⟩

/-! ## Claim C8 — `evaluate_proposal` with non-positive base risk -/

/-- Counterexample to claim C8 as stated: a proposal with
`suggested_risk_pct = 0` (and no `suggested_risk` entry) does not pass
through unscaled — Python's `or` treats the zero as falsy, the base risk
falls back to `initial_risk_pct`, and the proposal is downscaled by
`current_risk_pct / initial_risk_pct`. -/
theorem claim_C8_counterexample :
    let s := { mkRiskEngine 1 (5/100) 1 10 3 (1/2) 5 true 3 (1/10) with
               current_risk_pct := 1/2 }
    let p : RiskView := ⟨some 0, none⟩
    s.blocked_for_day = false ∧
    (∃ v, p.suggested_risk_pct = some v ∧ v ≤ 0) ∧
    (evaluateProposal s p).1.scale = 1/2 ∧
    ¬(evaluateProposal s p).1.scale = 1 := by
  refine ⟨by norm_num [mkRiskEngine], ⟨0, rfl, le_refl 0⟩, ?_, ?_⟩ <;>
    norm_num [evaluateProposal, resolveBaseRisk, pyOrOpt, mkRiskEngine]

/-- Claim C8 (amended): `evaluate_proposal` resolves the base risk via the
falsy-coalescing chain `suggested_risk_pct or suggested_risk`, defaulting to
`initial_risk_pct` (so an explicit zero `suggested_risk_pct` with no
`suggested_risk` entry is replaced by `initial_risk_pct` and may be
downscaled).  For every non-blocked state and proposal whose *resolved* base
risk is non-positive — in particular any proposal with a strictly negative
`suggested_risk_pct` — the proposal passes through unscaled: allow with
scale 1 and no state change, for any value of `current_risk_pct`. -/
theorem claim_C8_nonpositive_risk (s : RiskEngine) (p : RiskView)
    (hb : s.blocked_for_day = false) (hr : resolveBaseRisk s p ≤ 0) :
    (evaluateProposal s p).1.allow = true ∧
    (evaluateProposal s p).1.scale = 1 ∧
    (evaluateProposal s p).2 = s := by
  simp [evaluateProposal, hb, hr]

/-- Witness for `claim_C8_nonpositive_risk`: a fresh engine and a proposal
suggesting risk `-1`. -/
theorem claim_C8_nonpositive_risk_witness :
    (evaluateProposal (mkRiskEngine 1 (5/100) 1 10 3 (1/2) 5 true 3 (1/10))
        ⟨some (-1), none⟩).1.allow = true ∧
    (evaluateProposal (mkRiskEngine 1 (5/100) 1 10 3 (1/2) 5 true 3 (1/10))
        ⟨some (-1), none⟩).1.scale = 1 :=
  ⟨(claim_C8_nonpositive_risk _ _ (by norm_num [mkRiskEngine])
      (by norm_num [resolveBaseRisk, pyOrOpt, mkRiskEngine])).1,
   (claim_C8_nonpositive_risk _ _ (by norm_num [mkRiskEngine])
      (by norm_num [resolveBaseRisk, pyOrOpt, mkRiskEngine])).2.1⟩

/-! ## Claim C9 — frame of `evaluate_proposal` -/

/-- Claim C9 (confirmed): `evaluate_proposal` leaves every state field
unchanged except the append-only events log — risk cap, daily latch, NAV
references, PnL, streaks, step counter and all trigger counters keep their
values, and the events list only grows by appended entries. -/
theorem claim_C9_evaluate_frame (s : RiskEngine) (p : RiskView) :
    (evaluateProposal s p).2.current_risk_pct = s.current_risk_pct ∧
    (evaluateProposal s p).2.blocked_for_day = s.blocked_for_day ∧
    (evaluateProposal s p).2.start_of_day_nav = s.start_of_day_nav ∧
    (evaluateProposal s p).2.daily_realized_pnl = s.daily_realized_pnl ∧
    (evaluateProposal s p).2.peak_nav = s.peak_nav ∧
    (evaluateProposal s p).2.consecutive_losses = s.consecutive_losses ∧
    (evaluateProposal s p).2.consecutive_wins = s.consecutive_wins ∧
    (evaluateProposal s p).2.reduction_steps = s.reduction_steps ∧
    (evaluateProposal s p).2.daily_loss_triggers = s.daily_loss_triggers ∧
    (evaluateProposal s p).2.dd_triggers = s.dd_triggers ∧
    (evaluateProposal s p).2.consecutive_loss_triggers = s.consecutive_loss_triggers ∧
    ∃ t, (evaluateProposal s p).2.events = s.events ++ t := by
  simp only [evaluateProposal]
  split_ifs <;>
    refine ⟨rfl, rfl, rfl, rfl, rfl, rfl, rfl, rfl, rfl, rfl, rfl, ?_⟩ <;>
    first
      | exact ⟨[], (List.append_nil _).symm⟩
      | exact ⟨[Event.riskVetoed], rfl⟩
      | exact ⟨[Event.riskScaled], rfl⟩


/-! ## Helper lemmas: trigger composition in `record_trade_result` -/

theorem dailyLossCheck_cases (s : RiskEngine) :
    dailyLossCheck s = s ∨
    dailyLossCheck s =
      { s with blocked_for_day := true,
               daily_loss_triggers := s.daily_loss_triggers + 1,
               events := s.events ++ [Event.dailyLossLimit] } := by
  unfold dailyLossCheck
  rcases hnav : s.start_of_day_nav with _ | nav0
  · exact Or.inl rfl
  · dsimp only
    split_ifs <;> first | exact Or.inl rfl | exact Or.inr rfl

theorem applyReduction_applied (s : RiskEngine)
    (h1 : s.reduction_steps < s.max_reduction_steps)
    (h2 : max (s.current_risk_pct * s.consecutive_loss_multiplier) s.min_risk_pct
        ≠ s.current_risk_pct) :
    applyReduction s =
      { s with
        current_risk_pct := max (s.current_risk_pct * s.consecutive_loss_multiplier) s.min_risk_pct
        reduction_steps := s.reduction_steps + 1
        consecutive_loss_triggers := s.consecutive_loss_triggers + 1
        events := s.events ++ [Event.riskReduction] } := by
  have hmax : (if s.current_risk_pct * s.consecutive_loss_multiplier < s.min_risk_pct then
      s.min_risk_pct else s.current_risk_pct * s.consecutive_loss_multiplier)
      = max (s.current_risk_pct * s.consecutive_loss_multiplier) s.min_risk_pct := by
    rcases lt_or_ge (s.current_risk_pct * s.consecutive_loss_multiplier) s.min_risk_pct with h | h
    · rw [if_pos h, max_eq_right h.le]
    · rw [if_neg (not_lt.mpr h), max_eq_left h]
  simp only [applyReduction, if_neg (not_le.mpr h1)]
  rw [hmax, if_pos h2]

theorem triggers_noop (u : RiskEngine) (dd : ℚ)
    (hlt : ¬ u.consecutive_losses ≥ u.consecutive_losses_threshold)
    (hdd : ¬ dd ≥ u.max_drawdown_limit_pct)
    (hwn : ¬ u.consecutive_wins ≥ u.recovery_consec_wins) :
    winStreakTrigger (drawdownTrigger dd (lossStreakTrigger (dailyLossCheck u)))
      = dailyLossCheck u := by
  rcases dailyLossCheck_cases u with h | h <;> rw [h] <;>
    dsimp only [lossStreakTrigger, drawdownTrigger, winStreakTrigger] <;>
    rw [if_neg hlt, if_neg hdd, if_neg hwn]

theorem triggers_fire (u : RiskEngine) (dd : ℚ)
    (hge : u.consecutive_losses ≥ u.consecutive_losses_threshold)
    (hdd : ¬ dd ≥ u.max_drawdown_limit_pct)
    (hwn : ¬ u.consecutive_wins ≥ u.recovery_consec_wins)
    (hst : u.reduction_steps < u.max_reduction_steps)
    (hch : max (u.current_risk_pct * u.consecutive_loss_multiplier) u.min_risk_pct
        ≠ u.current_risk_pct) :
    ∃ (b : Bool) (dlt : ℤ) (ev : List Event),
      winStreakTrigger (drawdownTrigger dd (lossStreakTrigger (dailyLossCheck u)))
        = { u with
            current_risk_pct := max (u.current_risk_pct * u.consecutive_loss_multiplier) u.min_risk_pct
            consecutive_losses := 0
            blocked_for_day := b
            daily_loss_triggers := dlt
            consecutive_loss_triggers := u.consecutive_loss_triggers + 1
            reduction_steps := u.reduction_steps + 1
            events := ev } := by
  rcases dailyLossCheck_cases u with h | h <;> rw [h]
  · refine ⟨u.blocked_for_day, u.daily_loss_triggers, u.events ++ [Event.riskReduction], ?_⟩
    dsimp only [lossStreakTrigger]
    rw [if_pos hge, applyReduction_applied u hst hch]
    dsimp only [drawdownTrigger, winStreakTrigger]
    rw [if_neg hdd, if_neg hwn]
  · refine ⟨true, u.daily_loss_triggers + 1,
      (u.events ++ [Event.dailyLossLimit]) ++ [Event.riskReduction], ?_⟩
    dsimp only [lossStreakTrigger]
    rw [if_pos hge, applyReduction_applied
      { u with blocked_for_day := true,
               daily_loss_triggers := u.daily_loss_triggers + 1,
               events := u.events ++ [Event.dailyLossLimit] } hst hch]
    dsimp only [drawdownTrigger, winStreakTrigger]
    rw [if_neg hdd, if_neg hwn]

theorem recordTradeResult_loss_small (s : RiskEngine) (pnl nav : ℚ) (hp : pnl ≤ 0)
    (hlt : ¬ s.consecutive_losses + 1 ≥ s.consecutive_losses_threshold)
    (hdd : ¬ ddOf (peakUpd s.peak_nav nav) nav ≥ s.max_drawdown_limit_pct)
    (hwn : ¬ (0 : ℤ) ≥ s.recovery_consec_wins) :
    ∃ (b : Bool) (dlt : ℤ) (ev : List Event),
      recordTradeResult s pnl nav =
        { s with daily_realized_pnl := s.daily_realized_pnl + pnl
                 consecutive_losses := s.consecutive_losses + 1
                 consecutive_wins := 0
                 peak_nav := peakUpd s.peak_nav nav
                 blocked_for_day := b
                 daily_loss_triggers := dlt
                 events := ev } := by
  simp only [recordTradeResult, if_pos hp]
  rw [triggers_noop
    { s with daily_realized_pnl := s.daily_realized_pnl + pnl
             consecutive_losses := s.consecutive_losses + 1
             consecutive_wins := 0
             peak_nav := peakUpd s.peak_nav nav } _ hlt hdd hwn]
  rcases dailyLossCheck_cases
    { s with daily_realized_pnl := s.daily_realized_pnl + pnl
             consecutive_losses := s.consecutive_losses + 1
             consecutive_wins := 0
             peak_nav := peakUpd s.peak_nav nav } with h | h <;> rw [h]
  · exact ⟨s.blocked_for_day, s.daily_loss_triggers, s.events, rfl⟩
  · exact ⟨true, s.daily_loss_triggers + 1, s.events ++ [Event.dailyLossLimit], rfl⟩

theorem recordTradeResult_loss_fire (s : RiskEngine) (pnl nav : ℚ) (hp : pnl ≤ 0)
    (hge : s.consecutive_losses + 1 ≥ s.consecutive_losses_threshold)
    (hdd : ¬ ddOf (peakUpd s.peak_nav nav) nav ≥ s.max_drawdown_limit_pct)
    (hwn : ¬ (0 : ℤ) ≥ s.recovery_consec_wins)
    (hst : s.reduction_steps < s.max_reduction_steps)
    (hch : max (s.current_risk_pct * s.consecutive_loss_multiplier) s.min_risk_pct
        ≠ s.current_risk_pct) :
    ∃ (b : Bool) (dlt : ℤ) (ev : List Event),
      recordTradeResult s pnl nav =
        { s with daily_realized_pnl := s.daily_realized_pnl + pnl
                 consecutive_losses := 0
                 consecutive_wins := 0
                 peak_nav := peakUpd s.peak_nav nav
                 current_risk_pct :=
                   max (s.current_risk_pct * s.consecutive_loss_multiplier) s.min_risk_pct
                 reduction_steps := s.reduction_steps + 1
                 consecutive_loss_triggers := s.consecutive_loss_triggers + 1
                 blocked_for_day := b
                 daily_loss_triggers := dlt
                 events := ev } := by
  simp only [recordTradeResult, if_pos hp]
  obtain ⟨b, dlt, ev, h⟩ := triggers_fire
    { s with daily_realized_pnl := s.daily_realized_pnl + pnl
             consecutive_losses := s.consecutive_losses + 1
             consecutive_wins := 0
             peak_nav := peakUpd s.peak_nav nav }
    (ddOf (peakUpd s.peak_nav nav) nav) hge hdd hwn hst hch
  exact ⟨b, dlt, ev, h⟩

/-! ## Claim C6 — the daily-loss latch -/

/-- Claim C6 (confirmed): once set, `blocked_for_day` survives every further
`record_trade_result` call regardless of the sign of the PnL; while blocked,
`evaluate_proposal` vetoes with reason `daily_loss_blocked` (leaving the
latch set); and `on_new_day` — and only it among the engine's operations —
resets the latch to false. -/
theorem claim_C6_daily_block_latch :
    (∀ (s : RiskEngine) (pnl nav : ℚ), s.blocked_for_day = true →
      (recordTradeResult s pnl nav).blocked_for_day = true) ∧
    (∀ (s : RiskEngine) (p : RiskView), s.blocked_for_day = true →
      (evaluateProposal s p).1.allow = false ∧
      (evaluateProposal s p).1.reason = "daily_loss_blocked" ∧
      (evaluateProposal s p).2.blocked_for_day = true) ∧
    (∀ (s : RiskEngine) (nav : ℚ), (onNewDay s nav).blocked_for_day = false) := by
  refine ⟨recordTradeResult_blocked_mono, fun s p hb => ?_, fun s nav => rfl⟩
  simp only [evaluateProposal, hb, if_true]
  exact ⟨trivial, trivial, trivial⟩

/-- Witness for `claim_C6_daily_block_latch`: a blocked engine survives a
profitable trade, vetoes a proposal, and is cleared by `on_new_day`. -/
theorem claim_C6_daily_block_latch_witness :
    (recordTradeResult { mkRiskEngine 1 (5/100) 1 10 3 (1/2) 5 true 3 (1/10) with
        blocked_for_day := true } 500 101).blocked_for_day = true ∧
    (evaluateProposal { mkRiskEngine 1 (5/100) 1 10 3 (1/2) 5 true 3 (1/10) with
        blocked_for_day := true } ⟨some 2, none⟩).1.allow = false ∧
    (evaluateProposal { mkRiskEngine 1 (5/100) 1 10 3 (1/2) 5 true 3 (1/10) with
        blocked_for_day := true } ⟨some 2, none⟩).1.reason = "daily_loss_blocked" ∧
    (onNewDay { mkRiskEngine 1 (5/100) 1 10 3 (1/2) 5 true 3 (1/10) with
        blocked_for_day := true } 100).blocked_for_day = false :=
  ⟨claim_C6_daily_block_latch.1 _ 500 101 rfl,
   (claim_C6_daily_block_latch.2.1 _ ⟨some 2, none⟩ rfl).1,
   (claim_C6_daily_block_latch.2.1 _ ⟨some 2, none⟩ rfl).2.1,
   claim_C6_daily_block_latch.2.2 _ 100⟩

theorem applyReduction_cases (s : RiskEngine) :
    (s.max_reduction_steps ≤ s.reduction_steps ∧
      applyReduction s = { s with events := s.events ++ [Event.reductionLimited] }) ∨
    (max (s.current_risk_pct * s.consecutive_loss_multiplier) s.min_risk_pct
        = s.current_risk_pct ∧
      applyReduction s = s) ∨
    (applyReduction s =
      { s with
        current_risk_pct := max (s.current_risk_pct * s.consecutive_loss_multiplier) s.min_risk_pct
        reduction_steps := s.reduction_steps + 1
        consecutive_loss_triggers := s.consecutive_loss_triggers + 1
        events := s.events ++ [Event.riskReduction] }) := by
  by_cases h1 : s.reduction_steps ≥ s.max_reduction_steps
  · refine Or.inl ⟨h1, ?_⟩
    simp only [applyReduction]
    rw [if_pos h1]
  · by_cases h2 : max (s.current_risk_pct * s.consecutive_loss_multiplier) s.min_risk_pct
        = s.current_risk_pct
    · refine Or.inr (Or.inl ⟨h2, ?_⟩)
      have hmax : (if s.current_risk_pct * s.consecutive_loss_multiplier < s.min_risk_pct then
          s.min_risk_pct else s.current_risk_pct * s.consecutive_loss_multiplier)
          = max (s.current_risk_pct * s.consecutive_loss_multiplier) s.min_risk_pct := by
        rcases lt_or_ge (s.current_risk_pct * s.consecutive_loss_multiplier) s.min_risk_pct with h | h
        · rw [if_pos h, max_eq_right h.le]
        · rw [if_neg (not_lt.mpr h), max_eq_left h]
      simp only [applyReduction]
      rw [if_neg h1, hmax, if_neg (not_not_intro h2)]
    · exact Or.inr (Or.inr (applyReduction_applied s (not_le.mp h1) h2))

theorem triggers_fire_bound (u : RiskEngine) (dd : ℚ)
    (hge : u.consecutive_losses ≥ u.consecutive_losses_threshold)
    (hdd : ¬ dd ≥ u.max_drawdown_limit_pct)
    (hwn : ¬ u.consecutive_wins ≥ u.recovery_consec_wins) :
    ∃ (b : Bool) (dlt clt rs : ℤ) (cr : ℚ) (ev : List Event),
      winStreakTrigger (drawdownTrigger dd (lossStreakTrigger (dailyLossCheck u)))
        = { u with
            current_risk_pct := cr
            consecutive_losses := 0
            blocked_for_day := b
            daily_loss_triggers := dlt
            consecutive_loss_triggers := clt
            reduction_steps := rs
            events := ev } ∧
      (rs = u.reduction_steps ∨ rs = u.reduction_steps + 1) ∧
      (u.reduction_steps < u.max_reduction_steps →
        max (u.current_risk_pct * u.consecutive_loss_multiplier) u.min_risk_pct
          ≠ u.current_risk_pct →
        rs = u.reduction_steps + 1 ∧
        cr = max (u.current_risk_pct * u.consecutive_loss_multiplier) u.min_risk_pct) := by
  rcases dailyLossCheck_cases u with h | h
  · rcases applyReduction_cases u with ⟨hc, ha⟩ | ⟨hc, ha⟩ | ha
    · refine ⟨u.blocked_for_day, u.daily_loss_triggers, u.consecutive_loss_triggers,
        u.reduction_steps, u.current_risk_pct, u.events ++ [Event.reductionLimited], ?_,
        Or.inl rfl, fun hlt _ => absurd hc (not_le.mpr hlt)⟩
      rw [h]
      dsimp only [lossStreakTrigger]
      rw [if_pos hge, ha]
      dsimp only [drawdownTrigger, winStreakTrigger]
      rw [if_neg hdd, if_neg hwn]
    · refine ⟨u.blocked_for_day, u.daily_loss_triggers, u.consecutive_loss_triggers,
        u.reduction_steps, u.current_risk_pct, u.events, ?_,
        Or.inl rfl, fun _ hne => absurd hc hne⟩
      rw [h]
      dsimp only [lossStreakTrigger]
      rw [if_pos hge, ha]
      dsimp only [drawdownTrigger, winStreakTrigger]
      rw [if_neg hdd, if_neg hwn]
    · refine ⟨u.blocked_for_day, u.daily_loss_triggers, u.consecutive_loss_triggers + 1,
        u.reduction_steps + 1,
        max (u.current_risk_pct * u.consecutive_loss_multiplier) u.min_risk_pct,
        u.events ++ [Event.riskReduction], ?_,
        Or.inr rfl, fun _ _ => ⟨rfl, rfl⟩⟩
      rw [h]
      dsimp only [lossStreakTrigger]
      rw [if_pos hge, ha]
      dsimp only [drawdownTrigger, winStreakTrigger]
      rw [if_neg hdd, if_neg hwn]
  · have hcase := applyReduction_cases
      { u with blocked_for_day := true,
               daily_loss_triggers := u.daily_loss_triggers + 1,
               events := u.events ++ [Event.dailyLossLimit] }
    rcases hcase with ⟨hc, ha⟩ | ⟨hc, ha⟩ | ha
    · refine ⟨true, u.daily_loss_triggers + 1, u.consecutive_loss_triggers,
        u.reduction_steps, u.current_risk_pct,
        (u.events ++ [Event.dailyLossLimit]) ++ [Event.reductionLimited], ?_,
        Or.inl rfl, fun hlt _ => absurd hc (not_le.mpr hlt)⟩
      rw [h]
      dsimp only [lossStreakTrigger]
      rw [if_pos hge, ha]
      dsimp only [drawdownTrigger, winStreakTrigger]
      rw [if_neg hdd, if_neg hwn]
    · refine ⟨true, u.daily_loss_triggers + 1, u.consecutive_loss_triggers,
        u.reduction_steps, u.current_risk_pct,
        u.events ++ [Event.dailyLossLimit], ?_,
        Or.inl rfl, fun _ hne => absurd hc hne⟩
      rw [h]
      dsimp only [lossStreakTrigger]
      rw [if_pos hge, ha]
      dsimp only [drawdownTrigger, winStreakTrigger]
      rw [if_neg hdd, if_neg hwn]
    · refine ⟨true, u.daily_loss_triggers + 1, u.consecutive_loss_triggers + 1,
        u.reduction_steps + 1,
        max (u.current_risk_pct * u.consecutive_loss_multiplier) u.min_risk_pct,
        (u.events ++ [Event.dailyLossLimit]) ++ [Event.riskReduction], ?_,
        Or.inr rfl, fun _ _ => ⟨rfl, rfl⟩⟩
      rw [h]
      dsimp only [lossStreakTrigger]
      rw [if_pos hge, ha]
      dsimp only [drawdownTrigger, winStreakTrigger]
      rw [if_neg hdd, if_neg hwn]

theorem recordTradeResult_loss_fire_bound (s : RiskEngine) (pnl nav : ℚ) (hp : pnl ≤ 0)
    (hge : s.consecutive_losses + 1 ≥ s.consecutive_losses_threshold)
    (hdd : ¬ ddOf (peakUpd s.peak_nav nav) nav ≥ s.max_drawdown_limit_pct)
    (hwn : ¬ (0 : ℤ) ≥ s.recovery_consec_wins) :
    ∃ (b : Bool) (dlt clt rs : ℤ) (cr : ℚ) (ev : List Event),
      recordTradeResult s pnl nav =
        { s with daily_realized_pnl := s.daily_realized_pnl + pnl
                 consecutive_losses := 0
                 consecutive_wins := 0
                 peak_nav := peakUpd s.peak_nav nav
                 current_risk_pct := cr
                 reduction_steps := rs
                 consecutive_loss_triggers := clt
                 blocked_for_day := b
                 daily_loss_triggers := dlt
                 events := ev } ∧
      (rs = s.reduction_steps ∨ rs = s.reduction_steps + 1) ∧
      (s.reduction_steps < s.max_reduction_steps →
        max (s.current_risk_pct * s.consecutive_loss_multiplier) s.min_risk_pct
          ≠ s.current_risk_pct →
        rs = s.reduction_steps + 1 ∧
        cr = max (s.current_risk_pct * s.consecutive_loss_multiplier) s.min_risk_pct) := by
  simp only [recordTradeResult, if_pos hp]
  obtain ⟨b, dlt, clt, rs, cr, ev, hmn, hbd, hpr⟩ := triggers_fire_bound
    { s with daily_realized_pnl := s.daily_realized_pnl + pnl
             consecutive_losses := s.consecutive_losses + 1
             consecutive_wins := 0
             peak_nav := peakUpd s.peak_nav nav }
    (ddOf (peakUpd s.peak_nav nav) nav) hge hdd hwn
  exact ⟨b, dlt, clt, rs, cr, ev, hmn, hbd, hpr⟩

/-! ## Claim C7 — three consecutive losses fire one reduction -/

/-- Counterexample to claim C7 as stated: with
`consecutive_loss_multiplier = 1` the triggered reduction does not change the
value, so three consecutive losses apply *zero* reductions (not exactly one):
`reduction_steps` stays 0 and no `risk_reduction` event is emitted.  (The
streak is still reset to 0.) -/
theorem claim_C7_counterexample :
    let e := onNewDay (mkRiskEngine 1 (5/100) 1 10 3 1 5 true 3 (1/10)) 100
    let r := recordTradeResult (recordTradeResult (recordTradeResult e (-1) 100) (-1) 100) (-1) 100
    e.consecutive_losses_threshold = 3 ∧ e.consecutive_losses = 0 ∧ e.reduction_steps = 0 ∧
    r.reduction_steps = 0 ∧ r.consecutive_losses = 0 ∧
    r.events.count Event.riskReduction = 0 := by
  refine ⟨rfl, rfl, rfl, ?_, ?_, ?_⟩ <;>
    norm_num [recordTradeResult, mkRiskEngine, onNewDay, dailyLossCheck, lossStreakTrigger,
      drawdownTrigger, winStreakTrigger, applyReduction, attemptRecovery, peakUpd, ddOf,
      List.count_cons]
  decide

/-- Claim C7 (amended): starting from an engine with threshold 3, zero loss
streak and zero reduction steps, three consecutive `record_trade_result`
calls with `pnl ≤ 0` (no drawdown trigger firing, recovery-win threshold at
least 1) apply *at most* one risk reduction (`reduction_steps ≤ 1`) and
leave `consecutive_losses` at 0 — both unconditionally, whatever the
multiplier, floor and step limit — and they apply exactly one, stepping
`reduction_steps` from 0 to 1 and moving `current_risk_pct` to
`max(current * multiplier, floor)`, whenever `max_reduction_steps ≥ 1` and
that clamped value differs from the current value. -/
theorem claim_C7_three_losses (s : RiskEngine) (pnl1 pnl2 pnl3 nav1 nav2 nav3 : ℚ)
    (hth : s.consecutive_losses_threshold = 3)
    (hl0 : s.consecutive_losses = 0)
    (hr0 : s.reduction_steps = 0)
    (hp1 : pnl1 ≤ 0) (hp2 : pnl2 ≤ 0) (hp3 : pnl3 ≤ 0)
    (hrw : 1 ≤ s.recovery_consec_wins)
    (hdd1 : ddOf (peakUpd s.peak_nav nav1) nav1 < s.max_drawdown_limit_pct)
    (hdd2 : ddOf (peakUpd (recordTradeResult s pnl1 nav1).peak_nav nav2) nav2
        < s.max_drawdown_limit_pct)
    (hdd3 : ddOf (peakUpd (recordTradeResult (recordTradeResult s pnl1 nav1) pnl2 nav2).peak_nav nav3) nav3
        < s.max_drawdown_limit_pct) :
    (recordTradeResult (recordTradeResult (recordTradeResult s pnl1 nav1) pnl2 nav2) pnl3 nav3).reduction_steps ≤ 1 ∧
    (recordTradeResult (recordTradeResult (recordTradeResult s pnl1 nav1) pnl2 nav2) pnl3 nav3).consecutive_losses = 0 ∧
    (1 ≤ s.max_reduction_steps →
      max (s.current_risk_pct * s.consecutive_loss_multiplier) s.min_risk_pct
        ≠ s.current_risk_pct →
      (recordTradeResult (recordTradeResult (recordTradeResult s pnl1 nav1) pnl2 nav2) pnl3 nav3).reduction_steps = 1 ∧
      (recordTradeResult (recordTradeResult (recordTradeResult s pnl1 nav1) pnl2 nav2) pnl3 nav3).current_risk_pct
        = max (s.current_risk_pct * s.consecutive_loss_multiplier) s.min_risk_pct) := by
  have hwn : ¬ (0 : ℤ) ≥ s.recovery_consec_wins := by omega
  obtain ⟨b1, d1, e1, h1⟩ := recordTradeResult_loss_small s pnl1 nav1 hp1
    (by rw [hl0, hth]; decide) (not_le.mpr hdd1) hwn
  rw [h1] at hdd2 hdd3 ⊢
  obtain ⟨b2, d2, e2, h2⟩ := recordTradeResult_loss_small _ pnl2 nav2 hp2
    (by dsimp only; rw [hl0, hth]; decide) (not_le.mpr hdd2) hwn
  rw [h2] at hdd3 ⊢
  obtain ⟨b3, d3, c3, r3, cr3, e3, h3, hbd, hpr⟩ := recordTradeResult_loss_fire_bound _ pnl3 nav3 hp3
    (by dsimp only; rw [hl0, hth]; decide) (not_le.mpr hdd3) hwn
  rw [h3]
  dsimp only at hbd hpr ⊢
  refine ⟨by omega, rfl, fun hms hch => ?_⟩
  obtain ⟨hx1, hx2⟩ := hpr (by omega) hch
  exact ⟨by omega, hx2⟩

/-- Witness for `claim_C7_three_losses`: the default engine (multiplier 1/2)
after `on_new_day(100)` and three losing trades at flat NAV applies exactly
one reduction, halving the risk cap to 1/2. -/
theorem claim_C7_three_losses_witness :
    (recordTradeResult (recordTradeResult (recordTradeResult
        (onNewDay (mkRiskEngine 1 (5/100) 1 10 3 (1/2) 5 true 3 (1/10)) 100)
        (-1) 100) (-1) 100) (-1) 100).reduction_steps = 1 ∧
    (recordTradeResult (recordTradeResult (recordTradeResult
        (onNewDay (mkRiskEngine 1 (5/100) 1 10 3 (1/2) 5 true 3 (1/10)) 100)
        (-1) 100) (-1) 100) (-1) 100).consecutive_losses = 0 ∧
    (recordTradeResult (recordTradeResult (recordTradeResult
        (onNewDay (mkRiskEngine 1 (5/100) 1 10 3 (1/2) 5 true 3 (1/10)) 100)
        (-1) 100) (-1) 100) (-1) 100).current_risk_pct = 1/2 := by
  have h := claim_C7_three_losses
    (onNewDay (mkRiskEngine 1 (5/100) 1 10 3 (1/2) 5 true 3 (1/10)) 100)
    (-1) (-1) (-1) 100 100 100
    rfl rfl rfl (by norm_num) (by norm_num) (by norm_num)
    (by norm_num [mkRiskEngine, onNewDay])
    (by norm_num [ddOf, peakUpd, mkRiskEngine, onNewDay])
    (by norm_num [recordTradeResult, mkRiskEngine, onNewDay, dailyLossCheck, lossStreakTrigger,
      drawdownTrigger, winStreakTrigger, applyReduction, attemptRecovery, peakUpd, ddOf])
    (by norm_num [recordTradeResult, mkRiskEngine, onNewDay, dailyLossCheck, lossStreakTrigger,
      drawdownTrigger, winStreakTrigger, applyReduction, attemptRecovery, peakUpd, ddOf])
  have hx := h.2.2 (by norm_num [mkRiskEngine, onNewDay])
    (by norm_num [mkRiskEngine, onNewDay])
  exact ⟨hx.1, h.2.1, hx.2.trans (by norm_num [mkRiskEngine, onNewDay])⟩

/-! ## Helper lemmas: the risk band invariant (claim C10) -/

theorem applyReduction_band (s : RiskEngine)
    (_hm1 : 0 < s.consecutive_loss_multiplier) (hm2 : s.consecutive_loss_multiplier ≤ 1)
    (h : RiskBandStrong s) : RiskBandStrong (applyReduction s) := by
  obtain ⟨h0, h1, h2⟩ := h
  have hcur0 : 0 ≤ s.current_risk_pct := h0.trans h1
  simp only [applyReduction]
  split_ifs with ha hb hc hd
  · exact ⟨h0, h1, h2⟩
  · exact ⟨h0, le_refl _, h1.trans h2⟩
  · exact ⟨h0, h1, h2⟩
  · exact ⟨h0, not_lt.mp hb, (mul_le_of_le_one_right hcur0 hm2).trans h2⟩
  · exact ⟨h0, h1, h2⟩

theorem attemptRecovery_band (s : RiskEngine)
    (h : RiskBandStrong s) : RiskBandStrong (attemptRecovery s) := by
  obtain ⟨h0, h1, h2⟩ := h
  simp only [attemptRecovery]
  split_ifs with ha hb hc hd he
  · exact ⟨h0, h1, h2⟩
  · exact ⟨h0, h1, h2⟩
  · exact ⟨h0, h1.trans h2, le_refl _⟩
  · exact ⟨h0, h1, h2⟩
  · exact ⟨h0, h1.trans he.le, not_lt.mp hc⟩
  · exact ⟨h0, h1, h2⟩

theorem dailyLossCheck_band (s : RiskEngine)
    (h : RiskBandStrong s) : RiskBandStrong (dailyLossCheck s) := by
  rcases dailyLossCheck_cases s with hd | hd <;> rw [hd] <;> exact h

theorem lossStreakTrigger_band (s : RiskEngine)
    (hm1 : 0 < s.consecutive_loss_multiplier) (hm2 : s.consecutive_loss_multiplier ≤ 1)
    (h : RiskBandStrong s) : RiskBandStrong (lossStreakTrigger s) := by
  unfold lossStreakTrigger
  split_ifs with hf
  · exact applyReduction_band s hm1 hm2 h
  · exact h

theorem drawdownTrigger_band (dd : ℚ) (s : RiskEngine)
    (hm1 : 0 < s.consecutive_loss_multiplier) (hm2 : s.consecutive_loss_multiplier ≤ 1)
    (h : RiskBandStrong s) : RiskBandStrong (drawdownTrigger dd s) := by
  unfold drawdownTrigger
  split_ifs with hf
  · exact applyReduction_band s hm1 hm2 h
  · exact h

theorem winStreakTrigger_band (s : RiskEngine)
    (h : RiskBandStrong s) : RiskBandStrong (winStreakTrigger s) := by
  unfold winStreakTrigger
  split_ifs with hf
  · exact attemptRecovery_band s h
  · exact h

theorem applyReduction_mult (s : RiskEngine) :
    (applyReduction s).consecutive_loss_multiplier = s.consecutive_loss_multiplier := by
  simp only [applyReduction]
  split_ifs <;> rfl

theorem attemptRecovery_mult (s : RiskEngine) :
    (attemptRecovery s).consecutive_loss_multiplier = s.consecutive_loss_multiplier := by
  simp only [attemptRecovery]
  split_ifs <;> rfl

theorem dailyLossCheck_mult (s : RiskEngine) :
    (dailyLossCheck s).consecutive_loss_multiplier = s.consecutive_loss_multiplier := by
  rcases dailyLossCheck_cases s with hd | hd <;> rw [hd]

theorem lossStreakTrigger_mult (s : RiskEngine) :
    (lossStreakTrigger s).consecutive_loss_multiplier = s.consecutive_loss_multiplier := by
  unfold lossStreakTrigger
  split_ifs <;> simp [applyReduction_mult]

theorem drawdownTrigger_mult (dd : ℚ) (s : RiskEngine) :
    (drawdownTrigger dd s).consecutive_loss_multiplier = s.consecutive_loss_multiplier := by
  unfold drawdownTrigger
  split_ifs <;> simp [applyReduction_mult]

theorem winStreakTrigger_mult (s : RiskEngine) :
    (winStreakTrigger s).consecutive_loss_multiplier = s.consecutive_loss_multiplier := by
  unfold winStreakTrigger
  split_ifs <;> simp [attemptRecovery_mult]

theorem recordTradeResult_mult (s : RiskEngine) (pnl nav : ℚ) :
    (recordTradeResult s pnl nav).consecutive_loss_multiplier
      = s.consecutive_loss_multiplier := by
  simp only [recordTradeResult]
  split_ifs <;>
    rw [winStreakTrigger_mult, drawdownTrigger_mult, lossStreakTrigger_mult, dailyLossCheck_mult]

theorem recordTradeResult_band (s : RiskEngine) (pnl nav : ℚ)
    (hm1 : 0 < s.consecutive_loss_multiplier) (hm2 : s.consecutive_loss_multiplier ≤ 1)
    (h : RiskBandStrong s) : RiskBandStrong (recordTradeResult s pnl nav) := by
  simp only [recordTradeResult]
  split_ifs with hp <;>
  · refine winStreakTrigger_band _ (drawdownTrigger_band _ _ ?_ ?_ (lossStreakTrigger_band _ ?_ ?_ (dailyLossCheck_band _ h)))
    · rw [lossStreakTrigger_mult, dailyLossCheck_mult]; exact hm1
    · rw [lossStreakTrigger_mult, dailyLossCheck_mult]; exact hm2
    · rw [dailyLossCheck_mult]; exact hm1
    · rw [dailyLossCheck_mult]; exact hm2

/-! ## Claim C10 — the risk band invariant -/

/-- Counterexample to claim C10 as stated: with a *negative*
`initial_risk_pct` (allowed by the claim, which only constrains the
multiplier and the recovery step) the invariant holds after construction but
is broken by the very first reduction — halving a negative cap moves it
*up*, above `initial_risk_pct`. -/
theorem claim_C10_counterexample :
    let e := mkRiskEngine (-1) (5/100) 1 10 1 (1/2) 5 true 3 (1/10)
    0 < e.consecutive_loss_multiplier ∧ e.consecutive_loss_multiplier ≤ 1 ∧
    0 ≤ e.recovery_step_pct_of_initial ∧
    RiskBand e ∧
    ¬ RiskBand (recordTradeResult e (-1) 5) := by
  refine ⟨by norm_num [mkRiskEngine], by norm_num [mkRiskEngine],
    by norm_num [mkRiskEngine], by norm_num [RiskBand, mkRiskEngine], ?_⟩
  norm_num [RiskBand, recordTradeResult, mkRiskEngine, dailyLossCheck, lossStreakTrigger,
    drawdownTrigger, winStreakTrigger, applyReduction, attemptRecovery, peakUpd, ddOf]

/-- Claim C10 (amended): for every engine constructed with
`0 ≤ initial_risk_pct`, `0 < consecutive_loss_multiplier ≤ 1` and
`recovery_step_pct_of_initial ≥ 0`, the constructor clamps `min_risk_pct` to
at most `initial_risk_pct` (replacing a negative value by 0.01) and
establishes `0 ≤ min_risk_pct ≤ current_risk_pct ≤ initial_risk_pct`; the
strengthened band is preserved by every `on_new_day` and every
`record_trade_result` call (all internal reductions and recoveries included),
and `record_trade_result` never changes the multiplier, so the invariant
holds along every trajectory. -/
theorem claim_C10_risk_band (initial minRisk dailyLimit ddLimit : ℚ)
    (lossThreshold : ℤ) (lossMult : ℚ) (maxSteps : ℤ)
    (recEnabled : Bool) (recWins : ℤ) (recStep : ℚ)
    (hinit : 0 ≤ initial) (_hm1 : 0 < lossMult) (_hm2 : lossMult ≤ 1)
    (_hrs : 0 ≤ recStep) :
    RiskBandStrong (mkRiskEngine initial minRisk dailyLimit ddLimit
      lossThreshold lossMult maxSteps recEnabled recWins recStep) ∧
    (minRisk < 0 →
      (mkRiskEngine initial minRisk dailyLimit ddLimit
        lossThreshold lossMult maxSteps recEnabled recWins recStep).min_risk_pct
      = (if (1 : ℚ)/100 > initial then initial else 1/100)) ∧
    (∀ (s : RiskEngine) (nav : ℚ), RiskBandStrong s → RiskBandStrong (onNewDay s nav)) ∧
    (∀ (s : RiskEngine) (pnl nav : ℚ),
      0 < s.consecutive_loss_multiplier → s.consecutive_loss_multiplier ≤ 1 →
      RiskBandStrong s → RiskBandStrong (recordTradeResult s pnl nav)) ∧
    (∀ (s : RiskEngine) (pnl nav : ℚ),
      (recordTradeResult s pnl nav).consecutive_loss_multiplier
        = s.consecutive_loss_multiplier) := by
  refine ⟨?_, ?_, fun s nav h => h, recordTradeResult_band, recordTradeResult_mult⟩
  · simp only [mkRiskEngine]
    split_ifs with h1 h2 h3
    · exact ⟨hinit, le_refl _, le_refl _⟩
    · exact ⟨by norm_num, not_lt.mp h2, le_refl _⟩
    · exact ⟨hinit, le_refl _, le_refl _⟩
    · exact ⟨not_lt.mp h1, not_lt.mp h3, le_refl _⟩
  · intro hneg
    simp only [mkRiskEngine, if_pos hneg]

/-- Witness for `claim_C10_risk_band`: the default configuration with a
negative floor argument. -/
theorem claim_C10_risk_band_witness :
    RiskBandStrong (mkRiskEngine 1 (-3) 1 10 3 (1/2) 5 true 3 (1/10)) ∧
    (mkRiskEngine 1 (-3) 1 10 3 (1/2) 5 true 3 (1/10)).min_risk_pct
      = (if (1 : ℚ)/100 > 1 then 1 else 1/100) ∧
    RiskBandStrong (onNewDay (mkRiskEngine 1 (-3) 1 10 3 (1/2) 5 true 3 (1/10)) 100) ∧
    RiskBandStrong (recordTradeResult (mkRiskEngine 1 (-3) 1 10 3 (1/2) 5 true 3 (1/10)) (-1) 90) :=
  ⟨(claim_C10_risk_band 1 (-3) 1 10 3 (1/2) 5 true 3 (1/10)
      (by norm_num) (by norm_num) (by norm_num) (by norm_num)).1,
   (claim_C10_risk_band 1 (-3) 1 10 3 (1/2) 5 true 3 (1/10)
      (by norm_num) (by norm_num) (by norm_num) (by norm_num)).2.1 (by norm_num),
   (claim_C10_risk_band 1 (-3) 1 10 3 (1/2) 5 true 3 (1/10)
      (by norm_num) (by norm_num) (by norm_num) (by norm_num)).2.2.1 _ 100
     ((claim_C10_risk_band 1 (-3) 1 10 3 (1/2) 5 true 3 (1/10)
      (by norm_num) (by norm_num) (by norm_num) (by norm_num)).1),
   (claim_C10_risk_band 1 (-3) 1 10 3 (1/2) 5 true 3 (1/10)
      (by norm_num) (by norm_num) (by norm_num) (by norm_num)).2.2.2.1 _ (-1) 90
     (by norm_num [mkRiskEngine]) (by norm_num [mkRiskEngine])
     ((claim_C10_risk_band 1 (-3) 1 10 3 (1/2) 5 true 3 (1/10)
      (by norm_num) (by norm_num) (by norm_num) (by norm_num)).1)⟩

/-! ## Claim C2 — the 2%-risk / 1%-cap scenario -/

/-- Claim C2 (confirmed): with equity 100,000,000, one agent signal
suggesting 2% risk and a 1% stop, entry hint 50,000,000, and an engine with
`initial_risk_pct = 1.0`: `propose_positions` yields exactly one proposal
with suggested risk 2.0 (units 4), `evaluate_proposal` allows it with scale
0.5, and `finalize_orders` emits one order whose units are the proposal's
units times 0.5. -/
theorem claim_C2_scenario :
    let sig : Signal := ⟨"agent", "KRW-BTC", "long", 1, some (6/10), some 2, some 1, some 50000000⟩
    let engine := onNewDay (mkRiskEngine 1 (5/100) 1 10 3 (1/2) 5 true 3 (1/10)) 100000000
    let props := proposePositions [sig] 100000000 (some 50000000) (6/10) (2/10) 3
    let decs := (applyRiskEngine engine props).1
    let orders := finalizeOrders decs
    props.map Proposal.suggested_risk_pct = [2] ∧
    decs.map (fun dp => dp.1.allow) = [true] ∧
    decs.map (fun dp => dp.1.scale) = [1/2] ∧
    orders.map Order.units = [2] ∧
    orders.map Order.units = props.map (fun p => p.units * (1/2)) := by
  norm_num [proposePositions, proposeForSymbol, pickRep, symbolsIn, applyRiskEngine,
    evaluateProposal, finalizeOrders, riskViewOf, resolveBaseRisk, pyOrOpt, pyOrD,
    mkRiskEngine, onNewDay, List.filter, List.filterMap, sigKey, keyLt,
    show decide ("agent" = "rule") = false from rfl,
    show decide ("agent" = "agent") = true from rfl,
    show decide ("KRW-BTC" = "KRW-BTC") = true from rfl]

/-! ## Claim C4 — the depth-unknown TWAP run -/

/-- Counterexample to claim C4 as stated: in the concrete run (total
1,000,000, 4 slices, depth unknown throughout, default minimum slice
notional 5,000) the final slice plans the whole remainder and executes half
of *that* — 312,500, which exceeds half of the equal per-slice share
(125,000) — and no slice is ever recorded as `skipped_too_small`: the run
simply finishes all four slices. -/
theorem claim_C4_counterexample :
    let recs : List SliceRec := executeTwap Side.buy 1000000 4 5000 (2/1000) (1/1000) 100 ⟨[], []⟩
    (∃ r ∈ recs, r.status = SliceStatus.simulated ∧ ¬ r.actual ≤ 1000000 / 4 * (1/2)) ∧
    (∀ r ∈ recs, r.status ≠ SliceStatus.skippedTooSmall) := by
  have hrun : executeTwap Side.buy 1000000 4 5000 (2/1000) (1/1000) 100 ⟨[], []⟩
      = [⟨1, SliceStatus.simulated, 250000, 125000, 100 * (1 + 1/1000)⟩,
         ⟨2, SliceStatus.simulated, 250000, 125000, 100 * (1 + 1/1000)⟩,
         ⟨3, SliceStatus.simulated, 250000, 125000, 100 * (1 + 1/1000)⟩,
         ⟨4, SliceStatus.simulated, 625000, 312500, 100 * (1 + 1/1000)⟩] := by
    norm_num [executeTwap, twapGo, compute_max_notional_for_slippage,
      estimate_slippage_for_notional, bestOf, fillGo, cmpBuyGo]
  rw [hrun]
  refine ⟨⟨⟨4, SliceStatus.simulated, 625000, 312500, 100 * (1 + 1/1000)⟩,
    by norm_num, rfl, by norm_num⟩, ?_⟩
  intro r hr
  fin_cases hr <;> decide

/-- Claim C4 (amended): in the TWAP run with total 1,000,000, 4 slices and
depth unknown (allowed = null) on every slice, each *non-final* slice
executes exactly half of its equal share (125,000); the final slice plans
the whole remainder and executes half of it (312,500); no slice falls below
the default minimum slice notional of 5,000, so no `skipped_too_small`
record is appended and the run completes all four slices, leaving 312,500
unexecuted. -/
theorem claim_C4_twap_run :
    let recs : List SliceRec := executeTwap Side.buy 1000000 4 5000 (2/1000) (1/1000) 100 ⟨[], []⟩
    recs.map SliceRec.actual = [125000, 125000, 125000, 312500] ∧
    recs.map SliceRec.status = [SliceStatus.simulated, SliceStatus.simulated,
      SliceStatus.simulated, SliceStatus.simulated] ∧
    recs.map SliceRec.requested = [250000, 250000, 250000, 625000] ∧
    1000000 - (recs.map SliceRec.actual).sum = 312500 := by
  refine ⟨?_, ?_, ?_, ?_⟩ <;>
    norm_num [executeTwap, twapGo, compute_max_notional_for_slippage,
      estimate_slippage_for_notional, bestOf, fillGo, cmpBuyGo]

/-! ## Helper lemmas: greedy fills against the depth model (claims C1, C3) -/

theorem fillGo_zero (ls : List Level) (A K : ℚ) : fillGo ls 0 A K = some (A, K) := by
  induction ls generalizing A K with
  | nil => simp [fillGo]
  | cons l rest ih =>
    simp only [fillGo]
    split_ifs with h1 h2
    · exact ih A K
    · norm_num
    · exact absurd (lt_of_not_le h1).le h2

/-- Extending a successful fill of the tail through one fully-consumed level:
if the accumulated pair `(A + size, K + krw)` still satisfies the target
bound and the tail fill of the rest of the notional succeeds, then the fill
starting at this level succeeds with the same result. -/
theorem fillBuy_extend (target : ℚ) (l : Level) (rest : List Level) (A K N : ℚ)
    (hp : 0 < l.price) (hsz : 0 ≤ l.size)
    (hK2 : K + l.price * l.size ≤ target * (A + l.size))
    (hA2 : 0 < A + l.size)
    (hKN : K + l.price * l.size ≤ N)
    (hfill : ∃ sA, fillGo rest (N - (K + l.price * l.size)) (A + l.size) (K + l.price * l.size)
        = some (sA, N) ∧ 0 < sA ∧ N ≤ target * sA) :
    ∃ sA, fillGo (l :: rest) (N - K) A K = some (sA, N) ∧ 0 < sA ∧ N ≤ target * sA := by
  obtain ⟨sA, hf, hsA, hb⟩ := hfill
  by_cases hkrw : l.price * l.size ≤ 0
  · have hsz0 : l.size = 0 := by
      have h0 : l.price * l.size = 0 := le_antisymm hkrw (mul_nonneg hp.le hsz)
      rcases mul_eq_zero.mp h0 with h | h
      · exact absurd h (ne_of_gt hp)
      · exact h
    refine ⟨sA, ?_, hsA, hb⟩
    simp only [fillGo, Level.krw, if_pos hkrw]
    simp only [hsz0, mul_zero, add_zero] at hf
    exact hf
  · by_cases hge : l.price * l.size ≥ N - K
    · have heq : l.price * l.size = N - K := le_antisymm (by linarith) hge
      refine ⟨A + l.size, ?_, hA2, by linarith⟩
      simp only [fillGo, Level.krw, if_neg hkrw, if_pos hge]
      have hdiv : (N - K) / l.price = l.size := by
        rw [← heq, mul_comm, mul_div_assoc, div_self (ne_of_gt hp), mul_one]
      rw [hdiv]
      have hval : K + l.size * l.price = N := by
        rw [mul_comm]
        linarith
      rw [hval]
    · refine ⟨sA, ?_, hsA, hb⟩
      simp only [fillGo, Level.krw, if_neg hkrw, if_neg hge]
      have harg : N - K - l.price * l.size = N - (K + l.price * l.size) := by ring
      rw [harg]
      exact hf

/-- Main buy-side soundness lemma: whenever the accumulation loop of
`compute_max_notional_for_slippage` returns a notional `N` from a state
`(A, K)` whose average respects the target, the greedy fill of the remaining
`N - K` succeeds exactly, consumes a positive amount, and its total cost `N`
still respects the target average. -/
theorem cmpBuyGo_fill (target : ℚ) :
    ∀ (levels : List Level) (A K N : ℚ),
      WFLevels levels → 0 ≤ A → 0 ≤ K → K ≤ target * A → (0 < K → 0 < A) →
      cmpBuyGo target levels A K = some N →
      K ≤ N ∧ 0 < N ∧
        ∃ sA, fillGo levels (N - K) A K = some (sA, N) ∧ 0 < sA ∧ N ≤ target * sA := by
  intro levels
  induction levels with
  | nil =>
    intro A K N _ _ hK hInv hKA hEq
    simp only [cmpBuyGo] at hEq
    split_ifs at hEq with h
    obtain rfl : K = N := Option.some.inj hEq
    refine ⟨le_refl _, h, A, ?_, hKA h, hInv⟩
    rw [sub_self]
    exact fillGo_zero [] A K
  | cons l rest ih =>
    intro A K N hWF hA hK hInv hKA hEq
    obtain ⟨hp, hsz⟩ := hWF l (List.mem_cons_self l rest)
    have hWFr : WFLevels rest := fun x hx => hWF x (List.mem_cons_of_mem l hx)
    simp only [cmpBuyGo] at hEq
    by_cases h1 : A + l.size ≤ 0
    · -- degenerate level on an empty accumulator: A = size = K = 0
      rw [if_pos h1] at hEq
      have hA0 : A = 0 := le_antisymm (by linarith) hA
      have hsz0 : l.size = 0 := le_antisymm (by linarith) hsz
      have hK0 : K = 0 := le_antisymm (by rw [hA0, mul_zero] at hInv; exact hInv) hK
      subst hA0; subst hK0
      simp only [hsz0, mul_zero, add_zero] at hEq
      obtain ⟨hKN, hN, sA, hf, hsA, hb⟩ :=
        ih 0 0 N hWFr le_rfl le_rfl (by simp) (fun h => absurd h (lt_irrefl 0)) hEq
      refine ⟨by linarith, hN, sA, ?_, hsA, hb⟩
      simp only [fillGo, Level.krw, hsz0, mul_zero]
      rw [if_pos (le_refl (0 : ℚ))]
      simpa using hf
    · rw [if_neg h1] at hEq
      have hA2 : 0 < A + l.size := lt_of_not_le h1
      by_cases h2 : (K + l.price * l.size) / (A + l.size) ≤ target
      · -- whole level absorbed, average still within target
        rw [if_pos h2] at hEq
        have hK2 : K + l.price * l.size ≤ target * (A + l.size) := (div_le_iff₀ hA2).mp h2
        obtain ⟨hKN, hN, hfill⟩ :=
          ih (A + l.size) (K + l.price * l.size) N hWFr (add_nonneg hA hsz)
            (add_nonneg hK (mul_nonneg hp.le hsz)) hK2 (fun _ => hA2) hEq
        have hKN' : K ≤ N := le_trans (le_add_of_nonneg_right (mul_nonneg hp.le hsz)) hKN
        exact ⟨hKN', hN, fillBuy_extend target l rest A K N hp hsz hK2 hA2 hKN hfill⟩
      · rw [if_neg h2] at hEq
        by_cases h3 : l.price - target ≤ 0
        · -- whole level absorbed because its price is at most the target
          rw [if_pos h3] at hEq
          have hpt : l.price ≤ target := by linarith
          have hK2 : K + l.price * l.size ≤ target * (A + l.size) := by
            have hm : l.price * l.size ≤ target * l.size := mul_le_mul_of_nonneg_right hpt hsz
            have ht : target * (A + l.size) = target * A + target * l.size := by ring
            linarith
          obtain ⟨hKN, hN, hfill⟩ :=
            ih (A + l.size) (K + l.price * l.size) N hWFr (add_nonneg hA hsz)
              (add_nonneg hK (mul_nonneg hp.le hsz)) hK2 (fun _ => hA2) hEq
          have hKN' : K ≤ N := le_trans (le_add_of_nonneg_right (mul_nonneg hp.le hsz)) hKN
          exact ⟨hKN', hN, fillBuy_extend target l rest A K N hp hsz hK2 hA2 hKN hfill⟩
        · rw [if_neg h3] at hEq
          have hpt : 0 < l.price - target := lt_of_not_le h3
          by_cases h4 : (target * A - K) / (l.price - target) ≤ 0
          · -- partial solve yields a non-positive amount: return the accumulator
            rw [if_pos h4] at hEq
            by_cases h5 : K > 0
            · rw [if_pos h5] at hEq
              obtain rfl : K = N := Option.some.inj hEq
              refine ⟨le_refl _, h5, A, ?_, hKA h5, hInv⟩
              rw [sub_self]
              exact fillGo_zero (l :: rest) A K
            · rw [if_neg h5] at hEq
              exact absurd hEq (by simp)
          · -- partial fill of the breaching level
            rw [if_neg h4] at hEq
            have hx : 0 < (target * A - K) / (l.price - target) := lt_of_not_le h4
            have hsz0 : 0 < l.size := by
              rcases lt_or_eq_of_le hsz with h | h
              · exact h
              · exfalso
                apply h2
                rw [← h, mul_zero, add_zero, add_zero]
                have hA3 : 0 < A := by rw [← h, add_zero] at hA2; exact hA2
                exact (div_le_iff₀ hA3).mpr (by linarith)
            have hmin : 0 < min ((target * A - K) / (l.price - target)) l.size :=
              lt_min hx hsz0
            obtain rfl : K + min ((target * A - K) / (l.price - target)) l.size * l.price = N :=
              Option.some.inj hEq
            have hbound : K + min ((target * A - K) / (l.price - target)) l.size * l.price
                ≤ target * (A + min ((target * A - K) / (l.price - target)) l.size) := by
              have h6 : min ((target * A - K) / (l.price - target)) l.size * (l.price - target)
                  ≤ target * A - K := by
                calc min ((target * A - K) / (l.price - target)) l.size * (l.price - target)
                    ≤ (target * A - K) / (l.price - target) * (l.price - target) :=
                      mul_le_mul_of_nonneg_right (min_le_left _ _) hpt.le
                  _ = target * A - K := div_mul_cancel₀ _ (ne_of_gt hpt)
              nlinarith [h6]
            refine ⟨le_add_of_nonneg_right (mul_nonneg hmin.le hp.le),
              add_pos_of_nonneg_of_pos hK (mul_pos hmin hp),
              A + min ((target * A - K) / (l.price - target)) l.size, ?_,
              add_pos_of_nonneg_of_pos hA hmin, hbound⟩
            simp only [fillGo, Level.krw]
            rw [if_neg (not_le.mpr (mul_pos hp hsz0)), add_sub_cancel_left,
              if_pos (by
                have hm : min ((target * A - K) / (l.price - target)) l.size * l.price
                    ≤ l.size * l.price :=
                  mul_le_mul_of_nonneg_right (min_le_right _ _) hp.le
                rw [mul_comm l.price l.size]
                exact hm),
              mul_div_cancel_right₀ _ (ne_of_gt hp)]

/-- Sell-side analogue of `fillBuy_extend`, additionally tracking that the
total cost stays below `best` times the amount (bid prices are bounded by
`best`). -/
theorem fillSell_extend (target best : ℚ) (l : Level) (rest : List Level) (A K N : ℚ)
    (hp : 0 < l.price) (hsz : 0 ≤ l.size)
    (hK2 : target * (A + l.size) ≤ K + l.price * l.size)
    (hKb : K + l.price * l.size ≤ best * (A + l.size))
    (hA2 : 0 < A + l.size)
    (hKN : K + l.price * l.size ≤ N)
    (hfill : ∃ sA, fillGo rest (N - (K + l.price * l.size)) (A + l.size) (K + l.price * l.size)
        = some (sA, N) ∧ 0 < sA ∧ target * sA ≤ N ∧ N ≤ best * sA) :
    ∃ sA, fillGo (l :: rest) (N - K) A K = some (sA, N) ∧ 0 < sA ∧
      target * sA ≤ N ∧ N ≤ best * sA := by
  obtain ⟨sA, hf, hsA, hb1, hb2⟩ := hfill
  by_cases hkrw : l.price * l.size ≤ 0
  · have hsz0 : l.size = 0 := by
      have h0 : l.price * l.size = 0 := le_antisymm hkrw (mul_nonneg hp.le hsz)
      rcases mul_eq_zero.mp h0 with h | h
      · exact absurd h (ne_of_gt hp)
      · exact h
    refine ⟨sA, ?_, hsA, hb1, hb2⟩
    simp only [fillGo, Level.krw, if_pos hkrw]
    simp only [hsz0, mul_zero, add_zero] at hf
    exact hf
  · by_cases hge : l.price * l.size ≥ N - K
    · have heq : l.price * l.size = N - K := le_antisymm (by linarith) hge
      refine ⟨A + l.size, ?_, hA2, by linarith, by linarith⟩
      simp only [fillGo, Level.krw, if_neg hkrw, if_pos hge]
      have hdiv : (N - K) / l.price = l.size := by
        rw [← heq, mul_comm, mul_div_assoc, div_self (ne_of_gt hp), mul_one]
      rw [hdiv]
      have hval : K + l.size * l.price = N := by
        rw [mul_comm]
        linarith
      rw [hval]
    · refine ⟨sA, ?_, hsA, hb1, hb2⟩
      simp only [fillGo, Level.krw, if_neg hkrw, if_neg hge]
      have harg : N - K - l.price * l.size = N - (K + l.price * l.size) := by ring
      rw [harg]
      exact hf

/-- Main sell-side soundness lemma: whenever the sell loop of
`compute_max_notional_for_slippage` returns `N` from a state whose average
sits at or above the target, the greedy fill of `N - K` succeeds, consumes a
positive amount, and the average of the filled notional stays between
`target` and `best` (the latter because every bid price is at most `best`). -/
theorem cmpSellGo_fill (target best : ℚ) :
    ∀ (levels : List Level) (A K N : ℚ),
      (∀ l ∈ levels, 0 < l.price ∧ 0 ≤ l.size ∧ l.price ≤ best) →
      0 ≤ A → 0 ≤ K → target * A ≤ K → K ≤ best * A → (0 < K → 0 < A) →
      cmpSellGo target levels A K = some N →
      K ≤ N ∧ 0 < N ∧
        ∃ sA, fillGo levels (N - K) A K = some (sA, N) ∧ 0 < sA ∧
          target * sA ≤ N ∧ N ≤ best * sA := by
  intro levels
  induction levels with
  | nil =>
    intro A K N _ _ hK hInv1 hInv2 hKA hEq
    simp only [cmpSellGo] at hEq
    split_ifs at hEq with h
    obtain rfl : K = N := Option.some.inj hEq
    refine ⟨le_refl _, h, A, ?_, hKA h, hInv1, hInv2⟩
    rw [sub_self]
    exact fillGo_zero [] A K
  | cons l rest ih =>
    intro A K N hWF hA hK hInv1 hInv2 hKA hEq
    obtain ⟨hp, hsz, hpb⟩ := hWF l (List.mem_cons_self l rest)
    have hWFr : ∀ x ∈ rest, 0 < x.price ∧ 0 ≤ x.size ∧ x.price ≤ best :=
      fun x hx => hWF x (List.mem_cons_of_mem l hx)
    simp only [cmpSellGo] at hEq
    by_cases hA2 : A + l.size > 0
    · rw [if_pos hA2] at hEq
      by_cases h2 : (K + l.price * l.size) / (A + l.size) ≥ target
      · -- whole level absorbed, average still at or above target
        rw [if_pos h2] at hEq
        have hK2 : target * (A + l.size) ≤ K + l.price * l.size := (le_div_iff₀ hA2).mp h2
        have hKb : K + l.price * l.size ≤ best * (A + l.size) := by
          have hm : l.price * l.size ≤ best * l.size := mul_le_mul_of_nonneg_right hpb hsz
          have ht : best * (A + l.size) = best * A + best * l.size := by ring
          linarith
        obtain ⟨hKN, hN, hfill⟩ :=
          ih (A + l.size) (K + l.price * l.size) N hWFr (add_nonneg hA hsz)
            (add_nonneg hK (mul_nonneg hp.le hsz)) hK2 hKb (fun _ => hA2) hEq
        have hKN' : K ≤ N := le_trans (le_add_of_nonneg_right (mul_nonneg hp.le hsz)) hKN
        exact ⟨hKN', hN, fillSell_extend target best l rest A K N hp hsz hK2 hKb hA2 hKN hfill⟩
      · rw [if_neg h2] at hEq
        by_cases h3 : target - l.price ≤ 0
        · -- whole level absorbed because its price is at least the target
          rw [if_pos h3] at hEq
          have hpt : target ≤ l.price := by linarith
          have hK2 : target * (A + l.size) ≤ K + l.price * l.size := by
            have hm : target * l.size ≤ l.price * l.size := mul_le_mul_of_nonneg_right hpt hsz
            have ht : target * (A + l.size) = target * A + target * l.size := by ring
            linarith
          have hKb : K + l.price * l.size ≤ best * (A + l.size) := by
            have hm : l.price * l.size ≤ best * l.size := mul_le_mul_of_nonneg_right hpb hsz
            have ht : best * (A + l.size) = best * A + best * l.size := by ring
            linarith
          obtain ⟨hKN, hN, hfill⟩ :=
            ih (A + l.size) (K + l.price * l.size) N hWFr (add_nonneg hA hsz)
              (add_nonneg hK (mul_nonneg hp.le hsz)) hK2 hKb (fun _ => hA2) hEq
          have hKN' : K ≤ N := le_trans (le_add_of_nonneg_right (mul_nonneg hp.le hsz)) hKN
          exact ⟨hKN', hN, fillSell_extend target best l rest A K N hp hsz hK2 hKb hA2 hKN hfill⟩
        · rw [if_neg h3] at hEq
          have hpt : 0 < target - l.price := lt_of_not_le h3
          have hx : (target * A - K) / (target - l.price) ≤ 0 :=
            div_nonpos_iff.mpr (Or.inr ⟨by linarith, by linarith⟩)
          rw [if_pos hx] at hEq
          split_ifs at hEq with h5
          obtain rfl : K = N := Option.some.inj hEq
          refine ⟨le_refl _, h5, A, ?_, hKA h5, hInv1, hInv2⟩
          rw [sub_self]
          exact fillGo_zero (l :: rest) A K
    · -- degenerate level on an empty accumulator: A = size = K = 0
      rw [if_neg hA2] at hEq
      have hAle : A + l.size ≤ 0 := not_lt.mp hA2
      have hA0 : A = 0 := le_antisymm (by linarith) hA
      have hsz0 : l.size = 0 := le_antisymm (by linarith) hsz
      have hK0 : K = 0 := le_antisymm (by rw [hA0, mul_zero] at hInv2; exact hInv2) hK
      subst hA0; subst hK0
      simp only [hsz0, mul_zero, add_zero, sub_zero, zero_div, gt_iff_lt,
        lt_self_iff_false, if_false] at hEq
      have hrec : cmpSellGo target rest 0 0 = some N := by
        by_cases hc1 : l.price ≥ target
        · rw [if_pos hc1] at hEq; exact hEq
        · rw [if_neg hc1] at hEq
          by_cases hc2 : target - l.price ≤ 0
          · rw [if_pos hc2] at hEq; exact hEq
          · rw [if_neg hc2] at hEq
            rw [if_pos (le_refl (0 : ℚ))] at hEq
            exact absurd hEq (by simp)
      obtain ⟨hKN, hN, sA, hf, hsA, hb1, hb2⟩ :=
        ih 0 0 N hWFr le_rfl le_rfl (by simp) (by simp)
          (fun h => absurd h (lt_irrefl 0)) hrec
      refine ⟨by linarith, hN, sA, ?_, hsA, hb1, hb2⟩
      simp only [fillGo, Level.krw, hsz0, mul_zero]
      rw [if_pos (le_refl (0 : ℚ))]
      simpa using hf

/-! ## Claim C1 — slippage round-trip -/

/-- Counterexample to claim C1 as stated: on the sell side with a best-price
hint *below* the bid prices (bids `[(200, 1)]`, hint 100, bound 0), the
computed max notional is the whole book (200), but the estimated slippage of
that notional is `|200 - 100|/100 = 1`, far above the bound 0.  The sell
slippage is a positive magnitude, so a low hint breaks the round-trip. -/
theorem claim_C1_counterexample :
    compute_max_notional_for_slippage ⟨[], [⟨200, 1⟩]⟩ Side.sell 0 (some 100) = some 200 ∧
    estimate_slippage_for_notional ⟨[], [⟨200, 1⟩]⟩ Side.sell 200 (some 100) = some 1 ∧
    ¬ ((1 : ℚ) ≤ 0) := by
  refine ⟨?_, ?_, by norm_num⟩ <;>
    norm_num [compute_max_notional_for_slippage, estimate_slippage_for_notional, cmpSellGo,
      fillGo, bestOf, Level.krw]

/-- Claim C1 (amended): for every normalized snapshot (positive prices,
non-negative sizes), side, non-negative slippage bound `s` and best-price
hint that is positive — and, on the sell side, at least every bid price (as
the top-of-book hint always is) — if `compute_max_notional_for_slippage`
returns a notional `N`, then `estimate_slippage_for_notional` on `N` returns
a slippage fraction of at most `s`, exactly over the rationals.  (On the buy
side any positive hint works; the sell side needs the hint to dominate the
consumed prices because its slippage is reported as a positive magnitude.) -/
theorem claim_C1_slippage_roundtrip (book : Book) (side : Side) (s : ℚ)
    (hint : Option ℚ) (N : ℚ)
    (_hs : 0 ≤ s)
    (hwfa : WFLevels book.asks) (hwfb : WFLevels book.bids)
    (hbest : 0 < bestOf (match side with | Side.buy => book.asks | Side.sell => book.bids) hint)
    (hsell : side = Side.sell → ∀ l ∈ book.bids, l.price ≤ bestOf book.bids hint)
    (hN : compute_max_notional_for_slippage book side s hint = some N) :
    ∃ sl, estimate_slippage_for_notional book side N hint = some sl ∧ sl ≤ s := by
  cases side with
  | buy =>
    simp only [compute_max_notional_for_slippage] at hN
    by_cases hne : book.asks = []
    · rw [if_pos hne] at hN
      exact absurd hN (by simp)
    · rw [if_neg hne] at hN
      obtain ⟨-, hN0, sA, hf, hsA, hb⟩ :=
        cmpBuyGo_fill (bestOf book.asks hint * (1 + s)) book.asks 0 0 N hwfa le_rfl le_rfl
          (by simp) (fun h => absurd h (lt_irrefl 0)) hN
      rw [sub_zero] at hf
      refine ⟨N / sA / bestOf book.asks hint - 1, ?_, ?_⟩
      · simp only [estimate_slippage_for_notional, if_neg hne, hf]
        rw [if_neg (not_le.mpr hsA)]
      · have h1 : N / sA ≤ bestOf book.asks hint * (1 + s) :=
          (div_le_iff₀ hsA).mpr (by linarith)
        have h2 : N / sA / bestOf book.asks hint ≤ 1 + s := by
          rw [div_le_iff₀ hbest]
          calc N / sA ≤ bestOf book.asks hint * (1 + s) := h1
            _ = (1 + s) * bestOf book.asks hint := by ring
        linarith
  | sell =>
    simp only [compute_max_notional_for_slippage] at hN
    by_cases hne : book.bids = []
    · rw [if_pos hne] at hN
      exact absurd hN (by simp)
    · rw [if_neg hne] at hN
      have hwfb' : ∀ l ∈ book.bids, 0 < l.price ∧ 0 ≤ l.size ∧ l.price ≤ bestOf book.bids hint :=
        fun l hl => ⟨(hwfb l hl).1, (hwfb l hl).2, hsell rfl l hl⟩
      obtain ⟨-, hN0, sA, hf, hsA, hb1, hb2⟩ :=
        cmpSellGo_fill (bestOf book.bids hint * (1 - s)) (bestOf book.bids hint)
          book.bids 0 0 N hwfb' le_rfl le_rfl (by simp) (by simp)
          (fun h => absurd h (lt_irrefl 0)) hN
      rw [sub_zero] at hf
      refine ⟨|((N / sA - bestOf book.bids hint) / bestOf book.bids hint)|, ?_, ?_⟩
      · simp only [estimate_slippage_for_notional, if_neg hne, hf]
        rw [if_neg (not_le.mpr hsA)]
      · have havg2 : N / sA ≤ bestOf book.bids hint := (div_le_iff₀ hsA).mpr (by linarith)
        have havg1 : bestOf book.bids hint * (1 - s) ≤ N / sA := (le_div_iff₀ hsA).mpr hb1
        have hnonpos : (N / sA - bestOf book.bids hint) / bestOf book.bids hint ≤ 0 :=
          div_nonpos_iff.mpr (Or.inr ⟨by linarith, hbest.le⟩)
        rw [abs_of_nonpos hnonpos, ← neg_div, neg_sub, div_le_iff₀ hbest]
        have hexp : bestOf book.bids hint * (1 - s)
            = bestOf book.bids hint - bestOf book.bids hint * s := by ring
        have hcomm : s * bestOf book.bids hint = bestOf book.bids hint * s := by ring
        linarith

/-- Witness for `claim_C1_slippage_roundtrip`: asks `[(100,1), (101,2)]`,
bound 0.5%, default (top-of-book) hint — the max notional 201 round-trips to
exactly the 0.5% bound. -/
theorem claim_C1_slippage_roundtrip_witness :
    ∃ sl, estimate_slippage_for_notional ⟨[⟨100, 1⟩, ⟨101, 2⟩], []⟩ Side.buy 201 none
      = some sl ∧ sl ≤ 5/1000 :=
  claim_C1_slippage_roundtrip ⟨[⟨100, 1⟩, ⟨101, 2⟩], []⟩ Side.buy (5/1000) none 201
    (by norm_num)
    (by intro l hl; fin_cases hl <;> norm_num)
    (by intro l hl; exact absurd hl (List.not_mem_nil l))
    (by norm_num [bestOf])
    (fun h => nomatch h)
    (by
      norm_num [compute_max_notional_for_slippage, cmpBuyGo, bestOf]
      intro h
      exact absurd h (by simp))

/-- Sell-side positivity: whatever the target, a returned notional is
positive (no bound on the best price needed). -/
theorem cmpSellGo_pos (target : ℚ) :
    ∀ (levels : List Level) (A K N : ℚ),
      WFLevels levels → 0 ≤ A → 0 ≤ K → (0 < A → 0 < K) → (0 < K → 0 < A) →
      cmpSellGo target levels A K = some N → 0 < N := by
  intro levels
  induction levels with
  | nil =>
    intro A K N _ _ _ _ _ hEq
    simp only [cmpSellGo] at hEq
    split_ifs at hEq with h
    obtain rfl : K = N := Option.some.inj hEq
    exact h
  | cons l rest ih =>
    intro A K N hWF hA hK hAK hKA hEq
    obtain ⟨hp, hsz⟩ := hWF l (List.mem_cons_self l rest)
    have hWFr : WFLevels rest := fun x hx => hWF x (List.mem_cons_of_mem l hx)
    have hAK' : 0 < A + l.size → 0 < K + l.price * l.size := by
      intro h
      rcases lt_or_eq_of_le hsz with h' | h'
      · exact add_pos_of_nonneg_of_pos hK (mul_pos hp h')
      · rw [← h', mul_zero, add_zero]
        rw [← h', add_zero] at h
        exact hAK h
    have hKA' : 0 < K + l.price * l.size → 0 < A + l.size := by
      intro h
      rcases lt_or_eq_of_le hsz with h' | h'
      · exact add_pos_of_nonneg_of_pos hA h'
      · rw [← h', add_zero]
        rw [← h', mul_zero, add_zero] at h
        exact hKA h
    simp only [cmpSellGo] at hEq
    by_cases hA2 : A + l.size > 0
    · rw [if_pos hA2] at hEq
      by_cases h2 : (K + l.price * l.size) / (A + l.size) ≥ target
      · rw [if_pos h2] at hEq
        exact ih (A + l.size) (K + l.price * l.size) N hWFr (add_nonneg hA hsz)
          (add_nonneg hK (mul_nonneg hp.le hsz)) hAK' hKA' hEq
      · rw [if_neg h2] at hEq
        by_cases h3 : target - l.price ≤ 0
        · rw [if_pos h3] at hEq
          exact ih (A + l.size) (K + l.price * l.size) N hWFr (add_nonneg hA hsz)
            (add_nonneg hK (mul_nonneg hp.le hsz)) hAK' hKA' hEq
        · rw [if_neg h3] at hEq
          by_cases h4 : (target * A - K) / (target - l.price) ≤ 0
          · rw [if_pos h4] at hEq
            split_ifs at hEq with h5
            obtain rfl : K = N := Option.some.inj hEq
            exact h5
          · rw [if_neg h4] at hEq
            have hx : 0 < (target * A - K) / (target - l.price) := lt_of_not_le h4
            obtain rfl : K + min ((target * A - K) / (target - l.price)) l.size * l.price = N :=
              Option.some.inj hEq
            rcases lt_or_eq_of_le hsz with h' | h'
            · have hmin : 0 < min ((target * A - K) / (target - l.price)) l.size :=
                lt_min hx h'
              exact add_pos_of_nonneg_of_pos hK (mul_pos hmin hp)
            · have hK' : 0 < K := by
                rw [← h', add_zero] at hA2
                exact hAK hA2
              have hmin : 0 ≤ min ((target * A - K) / (target - l.price)) l.size :=
                le_min hx.le hsz
              have := mul_nonneg hmin hp.le
              linarith
    · rw [if_neg hA2] at hEq
      have hAle : A + l.size ≤ 0 := not_lt.mp hA2
      have hA0 : A = 0 := le_antisymm (by linarith) hA
      have hsz0 : l.size = 0 := le_antisymm (by linarith) hsz
      have hK0 : K = 0 := by
        by_contra hne
        have : 0 < K := lt_of_le_of_ne hK (Ne.symm hne)
        have := hKA this
        rw [hA0] at this
        exact lt_irrefl 0 this
      subst hA0; subst hK0
      simp only [hsz0, mul_zero, add_zero, sub_zero, zero_div, gt_iff_lt,
        lt_self_iff_false, if_false] at hEq
      have hrec : cmpSellGo target rest 0 0 = some N := by
        by_cases hc1 : l.price ≥ target
        · rw [if_pos hc1] at hEq; exact hEq
        · rw [if_neg hc1] at hEq
          by_cases hc2 : target - l.price ≤ 0
          · rw [if_pos hc2] at hEq; exact hEq
          · rw [if_neg hc2] at hEq
            rw [if_pos (le_refl (0 : ℚ))] at hEq
            exact absurd hEq (by simp)
      exact ih 0 0 N hWFr le_rfl le_rfl (fun h => absurd h (lt_irrefl 0))
        (fun h => absurd h (lt_irrefl 0)) hrec

/-- When every cumulative prefix average stays at or below the target, the
buy loop absorbs the whole book and returns the accumulated total (or `none`
when that total is not positive). -/
theorem cmpBuyGo_total (target : ℚ) :
    ∀ (levels : List Level) (A K : ℚ),
      0 ≤ A → (∀ l ∈ levels, 0 ≤ l.size) →
      (∀ (pre post : List Level) (l : Level), levels = pre ++ l :: post →
        K + sumKrw (pre ++ [l]) ≤ target * (A + sumAmt (pre ++ [l]))) →
      cmpBuyGo target levels A K
        = if 0 < K + sumKrw levels then some (K + sumKrw levels) else none := by
  intro levels
  induction levels with
  | nil =>
    intro A K _ _ _
    simp [cmpBuyGo, sumKrw]
  | cons l rest ih =>
    intro A K hA hsz hpre
    have hhead := hpre [] rest l rfl
    simp only [List.nil_append, sumKrw, sumAmt, List.map_cons, List.map_nil,
      List.sum_cons, List.sum_nil, Level.krw, add_zero] at hhead
    have hszl : 0 ≤ l.size := hsz l (List.mem_cons_self l rest)
    have hrec : cmpBuyGo target rest (A + l.size) (K + l.price * l.size)
        = if 0 < K + sumKrw (l :: rest) then some (K + sumKrw (l :: rest)) else none := by
      rw [ih (A + l.size) (K + l.price * l.size) (add_nonneg hA hszl)
        (fun x hx => hsz x (List.mem_cons_of_mem l hx))
        (fun pre post l' hsplit => by
          have h := hpre (l :: pre) post l' (by rw [hsplit, List.cons_append])
          simp only [List.cons_append, sumKrw, sumAmt, List.map_cons, List.sum_cons,
            Level.krw] at h ⊢
          linarith)]
      have htot : K + l.price * l.size + sumKrw rest = K + sumKrw (l :: rest) := by
        simp only [sumKrw, List.map_cons, List.sum_cons, Level.krw]
        ring
      rw [htot]
    simp only [cmpBuyGo]
    by_cases h1 : A + l.size ≤ 0
    · rw [if_pos h1]
      exact hrec
    · rw [if_neg h1]
      have hA2 : 0 < A + l.size := lt_of_not_le h1
      rw [if_pos ((div_le_iff₀ hA2).mpr (by linarith))]
      exact hrec

/-- When every cumulative prefix average stays at or above the target and
all sizes are positive, the sell loop absorbs the whole book and returns the
accumulated total (or `none` when that total is not positive). -/
theorem cmpSellGo_total (target : ℚ) :
    ∀ (levels : List Level) (A K : ℚ),
      0 ≤ A → (∀ l ∈ levels, 0 < l.size) →
      (∀ (pre post : List Level) (l : Level), levels = pre ++ l :: post →
        target * (A + sumAmt (pre ++ [l])) ≤ K + sumKrw (pre ++ [l])) →
      cmpSellGo target levels A K
        = if 0 < K + sumKrw levels then some (K + sumKrw levels) else none := by
  intro levels
  induction levels with
  | nil =>
    intro A K _ _ _
    simp [cmpSellGo, sumKrw]
  | cons l rest ih =>
    intro A K hA hsz hpre
    have hhead := hpre [] rest l rfl
    simp only [List.nil_append, sumKrw, sumAmt, List.map_cons, List.map_nil,
      List.sum_cons, List.sum_nil, Level.krw, add_zero] at hhead
    have hszl : 0 < l.size := hsz l (List.mem_cons_self l rest)
    have hrec : cmpSellGo target rest (A + l.size) (K + l.price * l.size)
        = if 0 < K + sumKrw (l :: rest) then some (K + sumKrw (l :: rest)) else none := by
      rw [ih (A + l.size) (K + l.price * l.size) (add_nonneg hA hszl.le)
        (fun x hx => hsz x (List.mem_cons_of_mem l hx))
        (fun pre post l' hsplit => by
          have h := hpre (l :: pre) post l' (by rw [hsplit, List.cons_append])
          simp only [List.cons_append, sumKrw, sumAmt, List.map_cons, List.sum_cons,
            Level.krw] at h ⊢
          linarith)]
      have htot : K + l.price * l.size + sumKrw rest = K + sumKrw (l :: rest) := by
        simp only [sumKrw, List.map_cons, List.sum_cons, Level.krw]
        ring
      rw [htot]
    have hA2 : 0 < A + l.size := add_pos_of_nonneg_of_pos hA hszl
    simp only [cmpSellGo]
    rw [if_pos hA2, if_pos ((le_div_iff₀ hA2).mpr (by linarith))]
    exact hrec

/-! ## Claim C3 — nullability and totality of `compute_max_notional_for_slippage` -/

/-- Counterexample to claim C3 as stated: a non-empty book (one ask level at
price 100) with a best-price hint of 50 and bound 0 returns `None` — the
very first level already breaches the target, so no positive notional fits.
Null is therefore not reserved for empty books. -/
theorem claim_C3_counterexample :
    compute_max_notional_for_slippage ⟨[⟨100, 1⟩], []⟩ Side.buy 0 (some 50) = none ∧
    Book.asks ⟨[⟨100, 1⟩], []⟩ ≠ [] := by
  refine ⟨?_, by simp⟩
  norm_num [compute_max_notional_for_slippage, cmpBuyGo, bestOf]

/-- Claim C3 (amended): `compute_max_notional_for_slippage` returns `None`
when the consumed side is empty, *and also* on non-empty books where no
initial depth fits within the target (see the counterexample).  Whenever it
returns a notional the notional is positive; and when every cumulative
prefix of the book keeps its weighted average within the target (and, on the
sell side, all sizes are positive), it returns the book's total notional,
provided that total is positive. -/
theorem claim_C3_nullability (book : Book) (s : ℚ) (hint : Option ℚ) :
    (∀ N, WFLevels book.asks →
      compute_max_notional_for_slippage book Side.buy s hint = some N → 0 < N) ∧
    (∀ N, WFLevels book.bids →
      compute_max_notional_for_slippage book Side.sell s hint = some N → 0 < N) ∧
    (book.asks = [] → compute_max_notional_for_slippage book Side.buy s hint = none) ∧
    (book.bids = [] → compute_max_notional_for_slippage book Side.sell s hint = none) ∧
    ((∀ (pre post : List Level) (l : Level), book.asks = pre ++ l :: post →
        sumKrw (pre ++ [l]) ≤ bestOf book.asks hint * (1 + s) * sumAmt (pre ++ [l])) →
      (∀ l ∈ book.asks, 0 ≤ l.size) →
      0 < sumKrw book.asks →
      compute_max_notional_for_slippage book Side.buy s hint = some (sumKrw book.asks)) ∧
    ((∀ (pre post : List Level) (l : Level), book.bids = pre ++ l :: post →
        bestOf book.bids hint * (1 - s) * sumAmt (pre ++ [l]) ≤ sumKrw (pre ++ [l])) →
      (∀ l ∈ book.bids, 0 < l.size) →
      0 < sumKrw book.bids →
      compute_max_notional_for_slippage book Side.sell s hint = some (sumKrw book.bids)) := by
  refine ⟨?_, ?_, ?_, ?_, ?_, ?_⟩
  · intro N hwf hN
    simp only [compute_max_notional_for_slippage] at hN
    by_cases hne : book.asks = []
    · rw [if_pos hne] at hN
      exact absurd hN (by simp)
    · rw [if_neg hne] at hN
      obtain ⟨-, hN0, -⟩ :=
        cmpBuyGo_fill (bestOf book.asks hint * (1 + s)) book.asks 0 0 N hwf le_rfl le_rfl
          (by simp) (fun h => absurd h (lt_irrefl 0)) hN
      exact hN0
  · intro N hwf hN
    simp only [compute_max_notional_for_slippage] at hN
    by_cases hne : book.bids = []
    · rw [if_pos hne] at hN
      exact absurd hN (by simp)
    · rw [if_neg hne] at hN
      exact cmpSellGo_pos (bestOf book.bids hint * (1 - s)) book.bids 0 0 N hwf le_rfl le_rfl
        (fun h => absurd h (lt_irrefl 0)) (fun h => absurd h (lt_irrefl 0)) hN
  · intro h
    simp [compute_max_notional_for_slippage, h]
  · intro h
    simp [compute_max_notional_for_slippage, h]
  · intro hpre hsz htot
    have hne : book.asks ≠ [] := by
      intro h
      rw [h] at htot
      simp [sumKrw] at htot
    simp only [compute_max_notional_for_slippage, if_neg hne]
    rw [cmpBuyGo_total (bestOf book.asks hint * (1 + s)) book.asks 0 0 le_rfl hsz
      (fun pre post l hsplit => by
        have := hpre pre post l hsplit
        rw [zero_add, zero_add]
        linarith)]
    rw [zero_add, if_pos htot]
  · intro hpre hsz htot
    have hne : book.bids ≠ [] := by
      intro h
      rw [h] at htot
      simp [sumKrw] at htot
    simp only [compute_max_notional_for_slippage, if_neg hne]
    rw [cmpSellGo_total (bestOf book.bids hint * (1 - s)) book.bids 0 0 le_rfl hsz
      (fun pre post l hsplit => by
        have := hpre pre post l hsplit
        rw [zero_add, zero_add]
        linarith)]
    rw [zero_add, if_pos htot]

/-- Witness for `claim_C3_nullability`: a two-level book on each side with a
loose bound (100%), plus the empty book for the null cases. -/
theorem claim_C3_nullability_witness :
    (0 : ℚ) < 302 ∧ (0 : ℚ) < 299 ∧
    compute_max_notional_for_slippage ⟨[], []⟩ Side.buy 1 none = none ∧
    compute_max_notional_for_slippage ⟨[], []⟩ Side.sell 1 none = none ∧
    compute_max_notional_for_slippage ⟨[⟨100, 1⟩, ⟨101, 2⟩], [⟨100, 2⟩, ⟨99, 1⟩]⟩ Side.buy 1 none
      = some (sumKrw [⟨100, 1⟩, ⟨101, 2⟩]) ∧
    compute_max_notional_for_slippage ⟨[⟨100, 1⟩, ⟨101, 2⟩], [⟨100, 2⟩, ⟨99, 1⟩]⟩ Side.sell 1 none
      = some (sumKrw [⟨100, 2⟩, ⟨99, 1⟩]) := by
  refine ⟨(claim_C3_nullability ⟨[⟨100, 1⟩, ⟨101, 2⟩], [⟨100, 2⟩, ⟨99, 1⟩]⟩ 1 none).1 302 ?_ ?_,
    (claim_C3_nullability ⟨[⟨100, 1⟩, ⟨101, 2⟩], [⟨100, 2⟩, ⟨99, 1⟩]⟩ 1 none).2.1 299 ?_ ?_,
    (claim_C3_nullability ⟨[], []⟩ 1 none).2.2.1 rfl,
    (claim_C3_nullability ⟨[], []⟩ 1 none).2.2.2.1 rfl,
    (claim_C3_nullability ⟨[⟨100, 1⟩, ⟨101, 2⟩], [⟨100, 2⟩, ⟨99, 1⟩]⟩ 1 none).2.2.2.2.1 ?_ ?_ ?_,
    (claim_C3_nullability ⟨[⟨100, 1⟩, ⟨101, 2⟩], [⟨100, 2⟩, ⟨99, 1⟩]⟩ 1 none).2.2.2.2.2 ?_ ?_ ?_⟩
  · intro l hl
    fin_cases hl <;> norm_num
  · norm_num [compute_max_notional_for_slippage, cmpBuyGo, bestOf]
    intro h
    exact absurd h (by simp)
  · intro l hl
    fin_cases hl <;> norm_num
  · norm_num [compute_max_notional_for_slippage, cmpSellGo, bestOf]
    intro h
    exact absurd h (by simp)
  · intro pre post l h
    rcases pre with _ | ⟨a, _ | ⟨b, pre⟩⟩ <;>
      simp only [List.nil_append, List.cons_append] at h
    · injection h with h1 h2
      subst h1
      norm_num [sumKrw, sumAmt, bestOf, Level.krw]
    · injection h with h1 h2
      injection h2 with h3 h4
      subst h1
      subst h3
      norm_num [sumKrw, sumAmt, bestOf, Level.krw]
    · injection h with h1 h2
      injection h2 with h3 h4
      exact absurd h4 (by simp)
  · intro l hl
    fin_cases hl <;> norm_num
  · norm_num [sumKrw, Level.krw]
  · intro pre post l h
    rcases pre with _ | ⟨a, _ | ⟨b, pre⟩⟩ <;>
      simp only [List.nil_append, List.cons_append] at h
    · injection h with h1 h2
      subst h1
      norm_num [sumKrw, sumAmt, bestOf, Level.krw]
    · injection h with h1 h2
      injection h2 with h3 h4
      subst h1
      subst h3
      norm_num [sumKrw, sumAmt, bestOf, Level.krw]
    · injection h with h1 h2
      injection h2 with h3 h4
      exact absurd h4 (by simp)
  · intro l hl
    fin_cases hl <;> norm_num
  · norm_num [sumKrw, Level.krw]
